import Mathlib

/-!
Verification of the structured-data reconciliation pipeline of the
apify-hackathon repository: listing-id derivation (src/utils.py),
the Pydantic data model (src/models.py), the extraction helpers ,
conversion repair pass and schema sanitizer (src/llm_service.py),
the consistency checker (src/consistency_checker.py) and the
mock/fallback generator (src/mock_data.py), shallowly embedded in Lean.

Python `str` is modelled by `String` (Python `len` counts code points,
as does `String.length`); Python `float` values relevant to the claims
are modelled by `ℚ` (all arithmetic involved is exact: parses of decimal
digit strings and one multiplication); Python `None`-able values by
`Option`; functions that can raise by `Option`/`Except`.
-/

set_option maxRecDepth 100000

namespace ApifyHack

/-! ## MD5 (the `hashlib.md5(url.encode()).hexdigest()` used by
`generate_listing_id_from_url` in src/utils.py and its inline copy in
src/mock_data.py).  Bytes are `Nat`s below 256, 32-bit words are `Nat`s
reduced mod `2^32`.  The digest is the standard RFC 1321 function of the
UTF-8 encoding of the input string. -/

namespace MD5

def add32 (a b : Nat) : Nat := (a + b) % 4294967296

def rotl32 (x s : Nat) : Nat :=
  ((x <<< s) + (x >>> (32 - s))) % 4294967296

def not32 (x : Nat) : Nat := 4294967295 ^^^ x

/-- UTF-8 encoding of one code point (what Python's `str.encode()` does
per character). -/
def utf8Char (c : Char) : List Nat :=
  let n := c.toNat
  if n < 128 then [n]
  else if n < 2048 then [192 + n / 64, 128 + n % 64]
  else if n < 65536 then [224 + n / 4096, 128 + (n / 64) % 64, 128 + n % 64]
  else [240 + n / 262144, 128 + (n / 4096) % 64, 128 + (n / 64) % 64, 128 + n % 64]

def utf8 (s : String) : List Nat := s.data.flatMap utf8Char

def K : List Nat :=
  [0xd76aa478, 0xe8c7b756, 0x242070db, 0xc1bdceee, 0xf57c0faf, 0x4787c62a,
   0xa8304613, 0xfd469501, 0x698098d8, 0x8b44f7af, 0xffff5bb1, 0x895cd7be,
   0x6b901122, 0xfd987193, 0xa679438e, 0x49b40821, 0xf61e2562, 0xc040b340,
   0x265e5a51, 0xe9b6c7aa, 0xd62f105d, 0x02441453, 0xd8a1e681, 0xe7d3fbc8,
   0x21e1cde6, 0xc33707d6, 0xf4d50d87, 0x455a14ed, 0xa9e3e905, 0xfcefa3f8,
   0x676f02d9, 0x8d2a4c8a, 0xfffa3942, 0x8771f681, 0x6d9d6122, 0xfde5380c,
   0xa4beea44, 0x4bdecfa9, 0xf6bb4b60, 0xbebfbc70, 0x289b7ec6, 0xeaa127fa,
   0xd4ef3085, 0x04881d05, 0xd9d4d039, 0xe6db99e5, 0x1fa27cf8, 0xc4ac5665,
   0xf4292244, 0x432aff97, 0xab9423a7, 0xfc93a039, 0x655b59c3, 0x8f0ccc92,
   0xffeff47d, 0x85845dd1, 0x6fa87e4f, 0xfe2ce6e0, 0xa3014314, 0x4e0811a1,
   0xf7537e82, 0xbd3af235, 0x2ad7d2bb, 0xeb86d391]

def S : List Nat :=
  [7, 12, 17, 22, 7, 12, 17, 22, 7, 12, 17, 22, 7, 12, 17, 22,
   5, 9, 14, 20, 5, 9, 14, 20, 5, 9, 14, 20, 5, 9, 14, 20,
   4, 11, 16, 23, 4, 11, 16, 23, 4, 11, 16, 23, 4, 11, 16, 23,
   6, 10, 15, 21, 6, 10, 15, 21, 6, 10, 15, 21, 6, 10, 15, 21]

/-- Message padding: a 0x80 byte, zeros to 56 mod 64, then the original
bit length as a 64-bit little-endian quantity. -/
def pad (msg : List Nat) : List Nat :=
  let bitLen := (msg.length * 8) % (2 ^ 64)
  let padLen := (55 + 64 - msg.length % 64) % 64 + 1
  msg ++ 128 :: List.replicate (padLen - 1) 0 ++
    (List.range 8).map (fun i => (bitLen >>> (8 * i)) % 256)

/-- Split into 64-byte blocks (fuel-structured so that it reduces in the
kernel; the fuel is an upper bound on the number of blocks). -/
def chunksGo : Nat → List Nat → List (List Nat)
  | 0, _ => []
  | _, [] => []
  | fuel + 1, x :: xs => ((x :: xs).take 64) :: chunksGo fuel ((x :: xs).drop 64)

def chunks64 (l : List Nat) : List (List Nat) := chunksGo l.length l

/-- Little-endian 32-bit word `g` of a block. -/
def word (blk : List Nat) (g : Nat) : Nat :=
  blk.getD (4 * g) 0 + 256 * blk.getD (4 * g + 1) 0 +
    65536 * blk.getD (4 * g + 2) 0 + 16777216 * blk.getD (4 * g + 3) 0

def mixF (i b c d : Nat) : Nat :=
  if i < 16 then (b &&& c) ||| (not32 b &&& d)
  else if i < 32 then (d &&& b) ||| (not32 d &&& c)
  else if i < 48 then b ^^^ c ^^^ d
  else c ^^^ (b ||| not32 d)

def gIdx (i : Nat) : Nat :=
  if i < 16 then i
  else if i < 32 then (5 * i + 1) % 16
  else if i < 48 then (3 * i + 5) % 16
  else (7 * i) % 16

def step (blk : List Nat) (st : Nat × Nat × Nat × Nat) (i : Nat) :
    Nat × Nat × Nat × Nat :=
  let (a, b, c, d) := st
  let f := add32 (add32 (add32 a (mixF i b c d)) (K.getD i 0)) (word blk (gIdx i))
  (d, add32 b (rotl32 f (S.getD i 0)), b, c)

def block (st : Nat × Nat × Nat × Nat) (blk : List Nat) :
    Nat × Nat × Nat × Nat :=
  let (a0, b0, c0, d0) := st
  let (a, b, c, d) := (List.range 64).foldl (step blk) (a0, b0, c0, d0)
  (add32 a0 a, add32 b0 b, add32 c0 c, add32 d0 d)

def initState : Nat × Nat × Nat × Nat :=
  (0x67452301, 0xefcdab89, 0x98badcfe, 0x10325476)

def hexChar (n : Nat) : Char :=
  if n < 10 then Char.ofNat (48 + n) else Char.ofNat (87 + n)

/-- Lowercase hex of one byte, high nibble first. -/
def hexByte (b : Nat) : List Char := [hexChar (b / 16), hexChar (b % 16)]

def wordBytes (w : Nat) : List Nat :=
  [w % 256, (w >>> 8) % 256, (w >>> 16) % 256, (w >>> 24) % 256]

def digest (msg : List Nat) : List Nat :=
  let (a, b, c, d) := (chunks64 (pad msg)).foldl block initState
  wordBytes a ++ wordBytes b ++ wordBytes c ++ wordBytes d

end MD5

/-- Python's `hashlib.md5(s.encode()).hexdigest()`. -/
def md5Hex (s : String) : String :=
  ⟨(MD5.digest (MD5.utf8 s)).flatMap MD5.hexByte⟩

/-- Python `str.upper()` restricted to ASCII (sufficient for hex digests). -/
def pyUpper (s : String) : String := ⟨s.data.map Char.toUpper⟩

/-- Embeds `generate_listing_id_from_url` (src/utils.py lines 11-21):
`"PRG-" + hashlib.md5(url.encode()).hexdigest()[:12].upper()`. -/
def generate_listing_id_from_url (url : String) : String :=
  "PRG-" ++ pyUpper ⟨(md5Hex url).data.take 12⟩

/-- Embeds the inline listing-id computation of
`generate_mock_result_for_property` (src/mock_data.py lines 166-169),
which repeats the hash-prefix-upper recipe locally. -/
def mockListingId (url : String) : String :=
  "PRG-" ++ pyUpper ⟨(md5Hex url).data.take 12⟩

/-! ## Python-style string helpers. -/

/-- Python truthiness of an optional string (`None` and `""` are falsy). -/
def truthyS : Option String → Bool
  | none => false
  | some s => s ≠ ""

/-- Python `a or b` for an optional string `a` and a string default `b`. -/
def pyOrS (a : Option String) (b : String) : String :=
  match a with
  | some s => if s = "" then b else s
  | none => b

/-- Python `s[:n]` on a string. -/
def pySlice (s : String) (n : Nat) : String := ⟨s.data.take n⟩

/-- Python `str.lower()` restricted to ASCII. -/
def pyLower (s : String) : String := ⟨s.data.map Char.toLower⟩

/-- Failure-propagating sequencing (a raised exception aborts the rest);
written out so that inversion lemmas apply to every use site. -/
def obind {α β : Type _} (o : Option α) (f : α → Option β) : Option β :=
  match o with
  | none => none
  | some a => f a

/-- The `Except` analogue of `obind`: a raised exception propagates. -/
def ebind {α β : Type _} (e : Except Unit α) (f : α → Except Unit β) :
    Except Unit β :=
  match e with
  | .error e => .error e
  | .ok a => f a

/-! ## Data model (src/models.py).

Each Pydantic model becomes a plain structure holding already-typed field
values plus a boolean validity predicate encoding exactly the `Field`
constraints of src/models.py; the Pydantic constructor (which raises
`ValidationError` when a constraint fails) becomes an `Option`-returning
smart constructor.  Timestamps are opaque `Nat` values; `HttpUrl` is kept
as an optional string (its syntactic URL check is orthogonal to every
claim and not modelled). -/

inductive SeverityLevel where
  | critical
  | medium
  | low
deriving DecidableEq, Repr

structure InconsistencyFinding where
  field_name : String
  description_says : String
  listing_data_says : String
  severity : SeverityLevel
  explanation : String
deriving DecidableEq, Repr

/-- Constraints of `InconsistencyFinding` in src/models.py lines 110-137:
`description_says` and `listing_data_says` have `max_length=200`,
`explanation` has `max_length=300`. -/
def findingOk (f : InconsistencyFinding) : Bool :=
  decide (f.description_says.length ≤ 200) &&
  decide (f.listing_data_says.length ≤ 200) &&
  decide (f.explanation.length ≤ 300)

/-- Pydantic construction of an `InconsistencyFinding`. -/
def mkFinding (fn ds ls : String) (sev : SeverityLevel) (ex : String) :
    Option InconsistencyFinding :=
  if findingOk ⟨fn, ds, ls, sev, ex⟩ then some ⟨fn, ds, ls, sev, ex⟩ else none

structure ConsistencyCheckResult where
  listing_id : String
  property_address : String
  checked_at : Nat
  total_inconsistencies : Int
  is_consistent : Bool
  findings : List InconsistencyFinding
  summary : String
deriving DecidableEq, Repr

/-- Constraints of `ConsistencyCheckResult` in src/models.py lines 140-170:
`total_inconsistencies >= 0`, at most 20 findings, `summary` at most 200
characters.  Nested findings are validated at their own construction. -/
def resultOk (r : ConsistencyCheckResult) : Bool :=
  decide (0 ≤ r.total_inconsistencies) &&
  decide (r.findings.length ≤ 20) &&
  decide (r.summary.length ≤ 200)

/-- Pydantic construction of a `ConsistencyCheckResult`. -/
def mkResult (lid addr : String) (at' : Nat) (total : Int) (cons : Bool)
    (findings : List InconsistencyFinding) (summary : String) :
    Option ConsistencyCheckResult :=
  if resultOk ⟨lid, addr, at', total, cons, findings, summary⟩ then
    some ⟨lid, addr, at', total, cons, findings, summary⟩
  else none

structure ListingInput where
  listing_id : String
  listing_url : Option String
  property_address : String
  city : String
  state : String
  zip_code : String
  bedrooms : Int
  bathrooms : ℚ
  square_meters : Option Int
  lot_size_sqft : Option Int
  year_built : Option Int
  property_type : Option String
  stories : Option Int
  garage_spaces : Option Int
  list_price : ℚ
  has_pool : Option Bool
  has_garage : Option Bool
  has_basement : Option Bool
  has_fireplace : Option Bool
  description : String
  realtor_name : Option String
  realtor_agency : Option String
  listing_date : Option Nat
deriving DecidableEq, Repr

/-- Constraints of `ListingInput` in src/models.py lines 28-107:
`bedrooms >= 0`, `bathrooms >= 0`, `square_meters >= 0` and
`lot_size_sqft >= 0` when present, `year_built` in `[1800, 2030]` when
present, `stories >= 1` when present, `garage_spaces >= 0` when present,
`list_price > 0` (strict), `len(description) >= 10`. -/
def listingOk (m : ListingInput) : Bool :=
  decide (0 ≤ m.bedrooms) &&
  decide (0 ≤ m.bathrooms) &&
  (match m.square_meters with | none => true | some v => decide (0 ≤ v)) &&
  (match m.lot_size_sqft with | none => true | some v => decide (0 ≤ v)) &&
  (match m.year_built with
   | none => true
   | some y => decide (1800 ≤ y) && decide (y ≤ 2030)) &&
  (match m.stories with | none => true | some v => decide (1 ≤ v)) &&
  (match m.garage_spaces with | none => true | some v => decide (0 ≤ v)) &&
  decide (0 < m.list_price) &&
  decide (10 ≤ m.description.length)

/-- Pydantic construction of a `ListingInput` from an already-typed
mapping: the mapping is accepted unchanged when every field constraint
holds and rejected (a `ValidationError`) otherwise. -/
def mkListingInput (m : ListingInput) : Option ListingInput :=
  if listingOk m then some m else none

/-! ## Mock/Fallback generator (src/mock_data.py lines 145-196). -/

/-- Embeds `generate_mock_result_for_property`.  The Python function
builds two `InconsistencyFinding`s and one `ConsistencyCheckResult` via
the Pydantic constructors, which can raise a `ValidationError` when an
interpolated fragment overflows a `max_length` bound; construction is
therefore `Option`-valued.  `now` stands for `datetime.now()`. -/
def generate_mock_result_for_property (url : String)
    (property_address title description price : Option String)
    (reason : String) (now : Nat) : Option ConsistencyCheckResult :=
  obind (mkFinding "description"
      (if truthyS description ∧ 100 < (description.getD "").length then
        pySlice (description.getD "") 100 ++ "..."
      else pyOrS description "N/A")
      ("Title: " ++ pyOrS title "N/A" ++ ", Price: " ++ pyOrS price "N/A")
      .medium ("Mock inconsistency result generated: " ++ reason)) fun f1 =>
  obind (mkFinding "price" (pyOrS price "Price not specified in description")
      ("Structured price: " ++ pyOrS price "N/A")
      .low ("Mock inconsistency result generated due to: " ++ reason)) fun f2 =>
  mkResult (mockListingId url) (pyOrS property_address (pyOrS title url))
    now 2 false [f1, f2]
    ("Mock inconsistency check result (" ++ reason ++
      "): Found 2 inconsistencies as fallback data")

/-! ## Extraction helpers (src/llm_service.py lines 371-384).

Regex `\d` is modelled as an ASCII digit; every input appearing in the
claims is ASCII, and the universal statements below carry the digit
predicate explicitly. -/

def natOfDigits (cs : List Char) : Nat :=
  cs.foldl (fun acc c => 10 * acc + (c.toNat - 48)) 0

/-- Suffix of the character list starting at the first digit, if any
(the anchor of `re.search(r'\d...', text)`). -/
def firstDigitSuffix : List Char → Option (List Char)
  | [] => none
  | c :: cs => if c.isDigit then some (c :: cs) else firstDigitSuffix cs

/-- Embeds `extract_number_from_text`: `None`/empty input gives `None`;
otherwise the first maximal digit run parsed with `int`, or `None` when
the text has no digit. -/
def extract_number_from_text (text : Option String) : Option Int :=
  match text with
  | none => none
  | some s =>
      if s = "" then none
      else (firstDigitSuffix s.data).map
        (fun suf => (natOfDigits (suf.takeWhile Char.isDigit) : Int))

/-- Embeds `extract_float_from_text`: first match of `\d+\.?\d*` parsed
with `float` (exact here, as a rational). -/
def extract_float_from_text (text : Option String) : Option ℚ :=
  match text with
  | none => none
  | some s =>
      if s = "" then none
      else (firstDigitSuffix s.data).map (fun suf =>
        let d1 := suf.takeWhile Char.isDigit
        let rest := suf.dropWhile Char.isDigit
        let d2 := match rest with
          | '.' :: r => r.takeWhile Char.isDigit
          | _ => []
        (natOfDigits d1 : ℚ) + (natOfDigits d2 : ℚ) / (10 : ℚ) ^ d2.length)

/-! ## Price parsing used by the Conversion Engine
(src/llm_service.py lines 529-553 and 661-688). -/

/-- Embeds `re.sub(r'[^\d.]', '', s.replace(' ', '').replace('​', ''))`:
keep only digits and periods (the two `replace` calls are subsumed). -/
def cleanPriceText (s : String) : String :=
  ⟨s.data.filter (fun c => c.isDigit || c = '.')⟩

/-- Python `float()` on a string made of digits and periods: succeeds
exactly when there is at most one period and at least one digit
(`"57."` and `".5"` parse, `"."`, `""` and `"1.2.3"` raise `ValueError`).
Any other character also raises. -/
def pyFloatDigitsDots (s : String) : Option ℚ :=
  let cs := s.data
  if cs.all (fun c => c.isDigit || c = '.') then
    let d1 := cs.takeWhile (· ≠ '.')
    let rest := cs.dropWhile (· ≠ '.')
    match rest with
    | [] => if cs = [] then none else some (natOfDigits d1 : ℚ)
    | _ :: d2 =>
        if d2.all Char.isDigit ∧ (d1 ≠ [] ∨ d2 ≠ []) then
          some ((natOfDigits d1 : ℚ) + (natOfDigits d2 : ℚ) / (10 : ℚ) ^ d2.length)
        else none
  else none

/-- Direct price extraction from the scraped price text (lines 531-539):
clean the text, then `float`; a `ValueError` leaves the value absent. -/
def extractPriceDirect (price : Option String) : Option ℚ :=
  match price with
  | none => none
  | some s =>
      if s = "" then none
      else
        let c := cleanPriceText s
        if c ≠ "" then pyFloatDigitsDots c else none

/-! ## Scraped-data context for the Conversion Engine
(src/llm_service.py lines 504-558). -/

/-- Python value of `property_data.get('location')`: absent/None, a plain
string, or a mapping with optional `full`/`city` entries (the only ones
this code reads). -/
inductive PyLocation where
  | noneV
  | strV (s : String)
  | dictV (full city : Option String)
deriving DecidableEq, Repr

structure PropertyDetails where
  area : Option String
  disposition : Option String
  pricePerM2 : Option String
deriving DecidableEq, Repr

/-- Fields of the raw scraped mapping that the Conversion Engine and the
consistency checker read (everything else only feeds prompt text). -/
structure ScrapedData where
  url : String
  title : Option String
  description : Option String
  price : Option String
  location : PyLocation
  details : PropertyDetails
  attrs : List (String × String)
deriving DecidableEq, Repr

/-- Python `attributes.get(k, '')`. -/
def attrGetD (attrs : List (String × String)) (k : String) : String :=
  match attrs.find? (fun kv => kv.1 = k) with
  | some kv => kv.2
  | none => ""

/-- Line 508: `city = location.get('city') or 'Prague'` when the location
is a mapping, `'Prague'` otherwise. -/
def convCity (pd : ScrapedData) : String :=
  match pd.location with
  | .dictV _ c => pyOrS c "Prague"
  | _ => "Prague"

/-- Line 517: `property_details.get('area') or attributes.get('Užitná plocha', '')`. -/
def areaStr (pd : ScrapedData) : String :=
  pyOrS pd.details.area (attrGetD pd.attrs "Užitná plocha")

/-- Lines 521-523: `area_sqm = extract_number_from_text(area_str)`. -/
def areaSqm (pd : ScrapedData) : Option Int :=
  extract_number_from_text (some (areaStr pd))

/-- Line 518: disposition text. -/
def dispositionStr (pd : ScrapedData) : String :=
  pyOrS pd.details.disposition (attrGetD pd.attrs "Dispozice")

/-- Line 526: `bedrooms = extract_number_from_text(disposition) or 0`. -/
def bedroomsPre (pd : ScrapedData) : Int :=
  match extract_number_from_text (some (dispositionStr pd)) with
  | some n => if n = 0 then 0 else n
  | none => 0

/-- Lines 543, 669: `property_details.get('pricePerM2') or attributes.get('Cena za jednotku', '')`. -/
def ppm2Str (pd : ScrapedData) : String :=
  pyOrS pd.details.pricePerM2 (attrGetD pd.attrs "Cena za jednotku")

/-- Lines 529-553: the pre-extracted price value; the per-m² fallback runs
when the direct value is falsy (`None` or `0.0`) and only assigns when
both the parsed rate and the area are truthy. -/
def priceValuePre (pd : ScrapedData) : Option ℚ :=
  let direct := extractPriceDirect pd.price
  if direct = none ∨ direct = some 0 then
    let p := ppm2Str pd
    if p ≠ "" then
      let c := cleanPriceText p
      if c ≠ "" then
        match pyFloatDigitsDots c with
        | some v =>
            match areaSqm pd with
            | some a => if a ≠ 0 ∧ v ≠ 0 then some (v * (a : ℚ)) else direct
            | none => direct
        | none => direct
      else direct
    else direct
  else direct

/-! ## Conversion Engine repair pass (src/llm_service.py lines 659-713). -/

/-- Subset of the parsed structured-completion response that the repair
pass reads and writes; the remaining keys pass through unchanged. -/
structure ConvParsed where
  list_price : Option ℚ
  description : Option String
  bedrooms : Option Int
  bathrooms : Option ℚ
  year_built : Option Int
deriving DecidableEq, Repr

/-- Lines 661-688: the `list_price` repair.  Note the branch where the
per-m² text and the area are both truthy but the cleaned rate text is
empty: no assignment happens there and the invalid value survives. -/
def repairListPrice (pd : ScrapedData) (lp : Option ℚ) : Option ℚ :=
  let bad := match lp with
    | none => true
    | some v => decide (v ≤ 0)
  if bad then
    let price_value := priceValuePre pd
    match price_value with
    | some v =>
        if v ≠ 0 ∧ 0 < v then some v
        else repairListPriceFallback pd lp
    | none => repairListPriceFallback pd lp
  else lp
where
  /-- Lines 667-688: the per-m²-times-area fallback, then the fixed
  1,000,000.0 floor. -/
  repairListPriceFallback (pd : ScrapedData) (lp : Option ℚ) : Option ℚ :=
    let p := ppm2Str pd
    let area := areaSqm pd
    let areaTruthy := match area with | some a => decide (a ≠ 0) | none => false
    if decide (p ≠ "") && areaTruthy then
      let c := cleanPriceText p
      if c ≠ "" then
        match pyFloatDigitsDots c with
        | some v2 =>
            let calculated := v2 * (((match area with | some a => a | none => 0) : Int) : ℚ)
            if 0 < calculated then some calculated else some 1000000
        | none => some 1000000
      else lp
    else some 1000000

/-- Lines 691-700: the `description` repair; it only runs when the parsed
description is truthy (present and non-empty). -/
def repairDescription (pd : ScrapedData) (d : Option String) : Option String :=
  match d with
  | some s =>
      if s ≠ "" then
        if s.length < 10 then
          let t := pd.title.getD ""
          if t ≠ "" ∧ 10 ≤ t.length then some t
          else some (pySlice ("Property listing in " ++ convCity pd ++ ". " ++ s) 500)
        else some s
      else some s
  | none => none

/-- Lines 702-713: bedrooms/bathrooms defaults and the year range fix. -/
def repairRest (pd : ScrapedData) (ld : ConvParsed) : ConvParsed :=
  let b1 : Option Int :=
    match ld.bedrooms with
    | none => some (max 0 (bedroomsPre pd))
    | some b => if b < 0 then some (max 0 (bedroomsPre pd)) else some b
  let ba1 : Option ℚ :=
    match ld.bathrooms with
    | none => some 1
    | some b => if b < 0 then some 1 else some b
  let y1 : Option Int :=
    match ld.year_built with
    | none => none
    | some y => if y < 1800 ∨ 2030 < y then none else some y
  { ld with bedrooms := b1, bathrooms := ba1, year_built := y1 }

/-- The whole repair pass of `convert_scraped_data_to_listing_input`. -/
def convRepair (pd : ScrapedData) (ld : ConvParsed) : ConvParsed :=
  repairRest pd
    { ld with
      list_price := repairListPrice pd ld.list_price
      description := repairDescription pd ld.description }

/-! ## Consistency checker (src/consistency_checker.py lines 14-121). -/

/-- Raw inconsistency entry as parsed from LLM JSON: each key optional. -/
structure IncDict where
  field_name : Option String
  description_says : Option String
  listing_data_says : Option String
  severity : Option String
  explanation : Option String
deriving DecidableEq, Repr

/-- Outcome of `check_consistency_with_llm` plus the content/JSON decode
steps (lines 46-59).  Shapes that raise midway (a non-mapping JSON value,
a non-list `inconsistencies`, entries that are not mappings) all land in
the catch-all `except` like `raises`, so they are folded into it. -/
inductive CheckLLMOut where
  | raises
  | noResult
  | badJson
  | parsed (inconsistencies : List IncDict)
deriving Repr

/-- Lines 65-70: severity string mapping with `'medium'` default. -/
def sevOfStr (s : Option String) : SeverityLevel :=
  let sv := pyLower (s.getD "medium")
  if sv = "critical" then .critical
  else if sv = "low" then .low
  else .medium

/-- Lines 72-80: one finding built with `.get` defaults, validated by the
Pydantic constructor. -/
def checkerFinding (inc : IncDict) : Option InconsistencyFinding :=
  mkFinding (inc.field_name.getD "unknown") (inc.description_says.getD "N/A")
    (inc.listing_data_says.getD "N/A") (sevOfStr inc.severity)
    (inc.explanation.getD "No explanation provided")

/-- The findings loop of lines 63-80: the first failing construction
raises and aborts the whole list. -/
def checkerFindings : List IncDict → Option (List InconsistencyFinding)
  | [] => some []
  | x :: xs =>
      obind (checkerFinding x) fun f =>
      obind (checkerFindings xs) fun fs => some (f :: fs)

/-- Fields `check_property_consistency` reads from its input mapping. -/
structure CheckerData where
  url : String
  title : Option String
  description : Option String
  price : Option String
  location : PyLocation
deriving Repr

/-- Lines 37-43: the address fallback chain. -/
def checkerAddress (pd : CheckerData) : String :=
  match pd.location with
  | .dictV full _ => pyOrS full (pyOrS pd.title pd.url)
  | .strV s => if s = "" then pyOrS pd.title pd.url else s
  | .noneV => pyOrS pd.title pd.url

/-- Lift of a fallible construction into the checker's `Except` flow:
a successful value is returned, a failure defers to the fallback. -/
def okOr (o : Option ConsistencyCheckResult)
    (e : Except Unit ConsistencyCheckResult) : Except Unit ConsistencyCheckResult :=
  match o with
  | some r => .ok r
  | none => e

/-- Lines 112-121: the fallback path.  The mock-generator call sits
outside the `try` block, so a `ValidationError` raised while building
the mock result escapes (`Except.error`). -/
def checkerFallback (pd : CheckerData) (now : Nat) :
    Except Unit ConsistencyCheckResult :=
  okOr (generate_mock_result_for_property pd.url (some (checkerAddress pd))
    pd.title pd.description pd.price
    "LLM consistency check failed or unavailable" now) (.error ())

/-- Lines 54-97: the successful-completion branch — build the findings,
then the result, with Pydantic failures caught and sent to the fallback. -/
def checkerParsed (pd : CheckerData) (now : Nat) (incs : List IncDict) :
    Except Unit ConsistencyCheckResult :=
  match checkerFindings incs with
  | some findings =>
      okOr (mkResult (generate_listing_id_from_url pd.url) (checkerAddress pd)
        now (findings.length : Int) (findings.length == 0) findings
        (if findings.isEmpty then "No inconsistencies found via LLM analysis"
         else "Found " ++ toString findings.length ++
           " inconsistency(ies) via LLM analysis"))
        (checkerFallback pd now)
  | none => checkerFallback pd now

/-- Embeds `check_property_consistency`.  Every failure inside the `try`
block falls back to the mock generator. -/
def check_property_consistency (pd : CheckerData) (llm : CheckLLMOut)
    (now : Nat) : Except Unit ConsistencyCheckResult :=
  match llm with
  | .parsed incs => checkerParsed pd now incs
  | _ => checkerFallback pd now

/-! ## Structured-output consistency repair
(src/llm_service.py lines 866-912, `check_consistency_with_structured_output`). -/

/-- Value found under the `findings` key of the parsed response. -/
inductive FindingsField where
  | notList
  | items (l : List IncDict)
deriving Repr

/-- Parsed structured-completion response for the consistency check; each
field is absent or an already-typed value. -/
structure ParsedConsistency where
  listing_id : Option String
  property_address : Option String
  checked_at : Option Nat
  total_inconsistencies : Option Int
  is_consistent : Option Bool
  findings : Option FindingsField
  summary : Option String
deriving Repr

/-- Strict Pydantic parse of one finding mapping: all keys required, the
severity must be exactly one of the three enum values. -/
def strictFinding (inc : IncDict) : Option InconsistencyFinding :=
  match inc.field_name, inc.description_says, inc.listing_data_says,
      inc.severity, inc.explanation with
  | some fn, some ds, some ls, some sv, some ex =>
      let sev : Option SeverityLevel :=
        if sv = "critical" then some .critical
        else if sv = "medium" then some .medium
        else if sv = "low" then some .low
        else none
      match sev with
      | some sev => mkFinding fn ds ls sev ex
      | none => none
  | _, _, _, _, _ => none

/-- Strict Pydantic parse of a findings list: all-or-nothing. -/
def strictFindings : List IncDict → Option (List InconsistencyFinding)
  | [] => some []
  | x :: xs =>
      obind (strictFinding x) fun f =>
      obind (strictFindings xs) fun fs => some (f :: fs)

/-- Lines 866-912: the repair pass and final Pydantic construction.
Identity fields are copied from the input listing when absent,
`checked_at` is stamped, a missing or non-list `findings` becomes `[]`,
`total_inconsistencies` is recomputed as the findings count whenever it
is absent or disagrees, `is_consistent` is defaulted (only when absent)
to `findings == []`, and a missing or empty summary is synthesized. -/
def repairStructured (li : ListingInput) (p : ParsedConsistency) (now : Nat) :
    Option ConsistencyCheckResult :=
  let lid := p.listing_id.getD li.listing_id
  let addr := p.property_address.getD li.property_address
  let at' := p.checked_at.getD now
  let fList : List IncDict :=
    match p.findings with
    | none => []
    | some .notList => []
    | some (.items l) => l
  let count := fList.length
  let isc := p.is_consistent.getD (count == 0)
  let synth :=
    if 0 < count then "Found " ++ toString count ++ " inconsistency(ies)"
    else "No inconsistencies found"
  let summary :=
    match p.summary with
    | some s => if s ≠ "" then s else synth
    | none => synth
  obind (strictFindings fList) fun findings =>
    mkResult lid addr at' (count : Int) isc findings summary

/-! ## JSON values and the schema sanitizer
(src/llm_service.py lines 14-91, `sanitize_json_schema_for_llm`).

Python values reachable from a JSON schema are modelled by the mutual
inductive `J`/`JList`/`JObj`; an object keeps its entries in insertion
order, mirroring a Python dict (which additionally has unique keys; the
operations below agree with dict semantics on unique-key objects).
Python`s numeric tower is collapsed to `ℚ`, with `bool` kept separate but
compared and ordered through its numeric value, as Python does. -/

mutual
inductive J where
  | null
  | bool (b : Bool)
  | num (q : ℚ)
  | str (s : String)
  | arr (xs : JList)
  | obj (kvs : JObj)
deriving Repr

inductive JList where
  | nil
  | cons (hd : J) (tl : JList)
deriving Repr

inductive JObj where
  | nil
  | cons (k : String) (v : J) (tl : JObj)
deriving Repr
end

def JList.toList : JList → List J
  | .nil => []
  | .cons x xs => x :: xs.toList

def JList.ofList : List J → JList
  | [] => .nil
  | x :: xs => .cons x (JList.ofList xs)

/-- First value stored under a key (dict lookup; Python keys are unique). -/
def JObj.getKey : JObj → String → Option J
  | .nil, _ => none
  | .cons k v tl, key => if k = key then some v else tl.getKey key

def JObj.hasKey (d : JObj) (key : String) : Bool := (d.getKey key).isSome

/-- Dict assignment `d[key] = val`: replaces in place, else appends. -/
def JObj.setKey : JObj → String → J → JObj
  | .nil, key, val => .cons key val .nil
  | .cons k v tl, key, val =>
      if k = key then .cons k val tl else .cons k v (tl.setKey key val)

/-- Dict `pop(key, None)`. -/
def JObj.delKey : JObj → String → JObj
  | .nil, _ => .nil
  | .cons k v tl, key =>
      if k = key then tl.delKey key else .cons k v (tl.delKey key)

def JObj.keys : JObj → List String
  | .nil => []
  | .cons k _ tl => k :: tl.keys

/-- Python hashability: lists and dicts cannot be placed in a `set`. -/
def hashable : J → Bool
  | .arr _ => false
  | .obj _ => false
  | _ => true

/-- Numeric value of a Python number, with `bool` counting as 0/1. -/
def numVal? : J → Option ℚ
  | .num q => some q
  | .bool b => some (if b then 1 else 0)
  | _ => none

/-- Python `==` on the hashable values (`True == 1`, `1 == 1.0`; values of
different non-numeric classes are unequal). -/
def pyEq (a b : J) : Bool :=
  match numVal? a, numVal? b with
  | some x, some y => x == y
  | _, _ =>
      match a, b with
      | .null, .null => true
      | .str s, .str t => s == t
      | _, _ => false

/-- Set-construction semantics: keep the first occurrence of each
equivalence class (CPython keeps the first-inserted of equal elements). -/
def dedupPyEqGo (seen : List J) : List J → List J
  | [] => []
  | x :: xs =>
      if seen.any (fun y => pyEq y x) then dedupPyEqGo seen xs
      else x :: dedupPyEqGo (seen ++ [x]) xs

def dedupPyEq (l : List J) : List J := dedupPyEqGo [] l

def isStrV : J → Bool
  | .str _ => true
  | _ => false

def strsOf (l : List J) : List String :=
  l.filterMap (fun x => match x with | .str s => some s | _ => none)

def sortStrs (l : List J) : List J :=
  (List.insertionSort (· ≤ ·) (strsOf l)).map J.str

def numKey (x : J) : ℚ := (numVal? x).getD 0

def insertByKey (x : J) : List J → List J
  | [] => [x]
  | y :: ys => if numKey x < numKey y then x :: y :: ys else y :: insertByKey x ys

def sortNums : List J → List J
  | [] => []
  | x :: xs => insertByKey x (sortNums xs)

/-- Python `sorted` on the deduplicated union: lists of at most one
element never compare; otherwise all elements must be mutually
comparable — all strings, or all numeric (`bool` orders as 0/1) — and
anything else raises `TypeError`. -/
def pySorted (l : List J) : Except Unit (List J) :=
  if l.length ≤ 1 then .ok l
  else if l.all isStrV then .ok (sortStrs l)
  else if l.all (fun x => (numVal? x).isSome) then .ok (sortNums l)
  else .error ()

/-- Lines 48-54: `sorted(list(set(props.keys()) | set(required)))`, with
`set(required)` raising on unhashable entries. -/
def requiredList (P : List String) (req : List J) : Except Unit (List J) :=
  if req.all hashable then pySorted (dedupPyEq (P.map J.str ++ req)) else .error ()

/-- Characters of a string as one-character strings (iterating a Python
string; each such string sanitizes to itself). -/
def strChars (s : String) : JList :=
  JList.ofList (s.data.map (fun c => J.str ⟨[c]⟩))

/-- Keys of a dict as strings (iterating a Python dict). -/
def keysArr (kvs : JObj) : JList := JList.ofList (kvs.keys.map J.str)

/-- Lines 33-37: strip a `"uri"` format, adding `type: "string"` when no
type is declared.  `pop` removes the key (unique in a Python dict). -/
def formatFix (d : JObj) : JObj :=
  match d.getKey "format" with
  | some (.str s) =>
      if s = "uri" then
        if (d.delKey "format").hasKey "type" then d.delKey "format"
        else (d.delKey "format").setKey "type" (.str "string")
      else d
  | _ => d

/-- Lines 40-58: when a `properties` key is present, recompute `required`
as the sorted union of all property keys with the previous entries (a
non-list `required` counts as empty) and force
`additionalProperties: false`. -/
def reqItems (d : JObj) : List J :=
  match d.getKey "required" with
  | some (.arr l) => l.toList
  | _ => []

def reqFix (d : JObj) : Except Unit JObj :=
  match d.getKey "properties" with
  | some (.obj props) =>
      ebind (requiredList props.keys (reqItems d)) fun r =>
        .ok ((d.setKey "required" (.arr (JList.ofList r))).setKey
          "additionalProperties" (.bool false))
  | some _ => .error ()
  | none => .ok d

mutual
/-- Embeds `sanitize_json_schema_for_llm`.  A non-dict input is returned
unchanged.  For a dict, the per-key recursive rewrites (`items`,
`anyOf`/`oneOf`/`allOf`, `properties`/`definitions`/`$defs`) are applied
entry-wise, then the non-recursive fixups: the `format == "uri"` strip
(lines 33-37) and the required/additionalProperties computation (lines
40-58).  The fixups touch none of the recursed keys and the recursion
never reads sibling keys, so this ordering agrees with the source, which
interleaves them on a mutating copy.  Raising Python operations
(`TypeError` from `set`/`sorted`, `AttributeError`/`TypeError` from
`.items()` or iteration on ill-typed values) surface as `Except.error`. -/
def sanitize : J → Except Unit J
  | .obj d =>
      ebind (sanitizeTop d) fun d1 =>
        ebind (reqFix (formatFix d1)) fun d2 => .ok (.obj d2)
  | x => .ok x

def sanitizeTop : JObj → Except Unit JObj
  | .nil => .ok .nil
  | .cons k v tl =>
      ebind (sanitizeVal k v) fun v' =>
        ebind (sanitizeTop tl) fun tl' => .ok (.cons k v' tl')

/-- The per-key recursive rewrite applied to a top-level entry. -/
def sanitizeVal (k : String) (v : J) : Except Unit J :=
  if k = "items" then sanitize v
  else if k = "anyOf" ∨ k = "oneOf" ∨ k = "allOf" then
    match v with
    | .arr xs => ebind (sanitizeItems xs) fun xs' => .ok (.arr xs')
    | .str s => .ok (.arr (strChars s))
    | .obj kvs => .ok (.arr (keysArr kvs))
    | _ => .error ()
  else if k = "properties" ∨ k = "definitions" ∨ k = "$defs" then
    match v with
    | .obj kvs => ebind (sanitizeVals kvs) fun kvs' => .ok (.obj kvs')
    | _ => .error ()
  else .ok v

def sanitizeItems : JList → Except Unit JList
  | .nil => .ok .nil
  | .cons x xs =>
      ebind (sanitize x) fun x' =>
        ebind (sanitizeItems xs) fun xs' => .ok (.cons x' xs')

def sanitizeVals : JObj → Except Unit JObj
  | .nil => .ok .nil
  | .cons k v tl =>
      ebind (sanitize v) fun v' =>
        ebind (sanitizeVals tl) fun tl' => .ok (.cons k v' tl')
end

/-! ## The sanitized-output invariant named by the spec: an object node
that declares properties lists every property key in its `required`
array and sets `additionalProperties` to `false`; checked recursively
along the sanitizer's own recursion edges. -/

def JList.containsStr : JList → String → Bool
  | .nil, _ => false
  | .cons x xs, p =>
      (match x with | .str s => s = p | _ => false) || xs.containsStr p

/-- The non-recursive part of the invariant at one object node. -/
def invTop (d : JObj) : Bool :=
  match d.getKey "properties" with
  | some (.obj props) =>
      let reqd : JList :=
        match d.getKey "required" with
        | some (.arr l) => l
        | _ => .nil
      props.keys.all (fun p => reqd.containsStr p) &&
        (match d.getKey "additionalProperties" with
         | some (.bool b) => b = false
         | _ => false)
  | _ => true

mutual
def inv : J → Bool
  | .obj d => invTop d && invEntries d
  | _ => true

/-- The sub-invariant demanded of one top-level entry, following the
sanitizer's recursion edges. -/
def invEntry (k : String) (v : J) : Bool :=
  if k = "items" then inv v
  else if k = "anyOf" ∨ k = "oneOf" ∨ k = "allOf" then
    match v with
    | .arr xs => invList xs
    | _ => true
  else if k = "properties" ∨ k = "definitions" ∨ k = "$defs" then
    match v with
    | .obj kvs => invVals kvs
    | _ => true
  else true

def invEntries : JObj → Bool
  | .nil => true
  | .cons k v tl => invEntry k v && invEntries tl

def invList : JList → Bool
  | .nil => true
  | .cons x xs => inv x && invList xs

def invVals : JObj → Bool
  | .nil => true
  | .cons _ v tl => inv v && invVals tl
end

/-! ## Outcome classification and concrete fixtures used by the
theorems below (all definitions precede all theorems). -/

/-- The completion-failure modes named by the spec: a raised transport
error, an absent result, or unparsable content. -/
def llmFailed : CheckLLMOut → Bool
  | .raises => true
  | .noResult => true
  | .badJson => true
  | .parsed _ => false

/-- A valid concrete listing mapping. -/
def m0 : ListingInput :=
  { listing_id := "PRG-TEST-001"
    listing_url := some "https://www.bezrealitky.cz/x"
    property_address := "Hostýnská 123, Praha - Strašnice"
    city := "Praha", state := "Czech Republic", zip_code := "10000"
    bedrooms := 3, bathrooms := 1
    square_meters := some 57, lot_size_sqft := none, year_built := some 1985
    property_type := some "Apartment", stories := some 5, garage_spaces := some 0
    list_price := 8499000
    has_pool := some false, has_garage := some false
    has_basement := some true, has_fireplace := some false
    description := "Nabízím k prodeji krásný byt po rekonstrukci."
    realtor_name := none, realtor_agency := none, listing_date := none }

/-- The same mapping with a zero price (violates `list_price > 0`). -/
def m0bad : ListingInput := { m0 with list_price := 0 }

/-- Scraped context whose disposition token is `"3+kk"`. -/
def pdDisp : ScrapedData :=
  { url := "", title := none, description := none, price := none
    location := .noneV
    details := { area := none, disposition := some "3+kk", pricePerM2 := none }
    attrs := [] }

/-- Scraped context for the price-repair failing input: no usable price
text, a per-m² text with no digits, and an available area. -/
def pd3 : ScrapedData :=
  { url := "https://example.com/1", title := none, description := none
    price := some ""
    location := .noneV
    details := { area := some "57 m²", disposition := none, pricePerM2 := some "Kč" }
    attrs := [] }

/-- Parsed conversion response reporting a zero price. -/
def ld3 : ConvParsed :=
  { list_price := some 0, description := some "A perfectly fine description."
    bedrooms := some 3, bathrooms := some 1, year_built := none }

/-- Scraped context with no title (forces the templated-description branch). -/
def pd4 : ScrapedData :=
  { url := "", title := none, description := none, price := none
    location := .noneV
    details := { area := none, disposition := none, pricePerM2 := none }
    attrs := [] }

/-- Parsed conversion response with an empty (hence falsy) description. -/
def ld4 : ConvParsed :=
  { list_price := some 1, description := some ""
    bedrooms := some 1, bathrooms := some 1, year_built := none }

/-- Parsed conversion response with the 5-character description `"Short"`. -/
def ldShort : ConvParsed := { ld4 with description := some "Short" }

/-- A structurally valid raw finding mapping. -/
def inc1 : IncDict :=
  { field_name := some "bedrooms", description_says := some "3"
    listing_data_says := some "4", severity := some "critical"
    explanation := some "Counts differ." }

/-- Structured consistency response whose reported `is_consistent` is
`true` even though it carries one finding. -/
def p1 : ParsedConsistency :=
  { listing_id := some "L1", property_address := some "A"
    checked_at := some 7, total_inconsistencies := some 1
    is_consistent := some true, findings := some (.items [inc1])
    summary := some "model says consistent" }

/-- The same response with `is_consistent` absent. -/
def p2 : ParsedConsistency := { p1 with is_consistent := none }

/-- A 200-character title: interpolated into a mock finding it overflows
the 200-character `listing_data_says` bound. -/
def longTitle : String := ⟨List.replicate 200 'x'⟩

/-- Checker input whose fallback mock construction raises. -/
def pdC6bad : CheckerData :=
  { url := "u", title := some longTitle, description := none, price := none
    location := .noneV }

/-- Checker input whose fallback mock construction succeeds. -/
def pdC6ok : CheckerData :=
  { url := "u", title := none, description := none, price := none
    location := .noneV }

/-- The value `generate_mock_result_for_property` produces when only the
url (and a reason) is supplied. -/
def mockUrlOnlyResult (url reason : String) (now : Nat) : ConsistencyCheckResult :=
  ⟨mockListingId url, url, now, 2, false,
   [⟨"description", "N/A", "Title: N/A, Price: N/A", .medium,
     "Mock inconsistency result generated: " ++ reason⟩,
    ⟨"price", "Price not specified in description", "Structured price: N/A", .low,
     "Mock inconsistency result generated due to: " ++ reason⟩],
   "Mock inconsistency check result (" ++ reason ++
     "): Found 2 inconsistencies as fallback data"⟩

/-- Schema `{"properties": {}, "required": [[]]}`: `set(required)` raises
`TypeError: unhashable type: 'list'`. -/
def badSchema : J :=
  .obj (.cons "properties" (.obj .nil)
    (.cons "required" (.arr (.cons (.arr .nil) .nil)) .nil))

/-- Schema `{"items": {"type": "object"}}`: the nested object-typed node
comes out without `additionalProperties`. -/
def itemsSchema : J :=
  .obj (.cons "items" (.obj (.cons "type" (.str "object") .nil)) .nil)

/-- Schema `{"properties": {"a": {"type": "string"}}}`. -/
def propSchema : J :=
  .obj (.cons "properties"
    (.obj (.cons "a" (.obj (.cons "type" (.str "string") .nil)) .nil)) .nil)

/-- Its sanitized form: `required: ["a"]` and `additionalProperties:
false` are appended. -/
def propSchemaOut : J :=
  .obj (.cons "properties"
    (.obj (.cons "a" (.obj (.cons "type" (.str "string") .nil)) .nil))
    (.cons "required" (.arr (.cons (.str "a") .nil))
      (.cons "additionalProperties" (.bool false) .nil)))

/-! ## Theorems.  Each claim of the specification corresponds to exactly
one main theorem below (with a witness or counterexample where called
for); shared helper lemmas come first. -/

/-- Regression check of the MD5 embedding against RFC 1321 vectors. -/
lemma md5Hex_abc : md5Hex "abc" = "900150983cd24fb0d6963f7d28e17f72" := by decide

lemma md5Hex_empty : md5Hex "" = "d41d8cd98f00b204e9800998ecf8427e" := by decide

/-- The mock generator's inline id recipe is literally the shared one. -/
lemma mockListingId_eq (url : String) :
    mockListingId url = generate_listing_id_from_url url := rfl

/-- C2: for every mapping accepted by the `ListingInput` constructor the
record satisfies `list_price > 0`, `len(description) >= 10`,
`bedrooms >= 0` and `bathrooms >= 0`; every mapping violating any of
these is rejected with a validation error. -/
theorem c2_listing_validation :
    (∀ m r : ListingInput, mkListingInput m = some r →
      0 < r.list_price ∧ 10 ≤ r.description.length ∧
      0 ≤ r.bedrooms ∧ 0 ≤ r.bathrooms) ∧
    (∀ m : ListingInput,
      (m.list_price ≤ 0 ∨ m.description.length < 10 ∨
        m.bedrooms < 0 ∨ m.bathrooms < 0) →
      mkListingInput m = none) := by
  constructor
  · intro m r h
    by_cases hv : listingOk m = true
    · unfold mkListingInput at h
      rw [if_pos hv] at h
      cases h
      unfold listingOk at hv
      simp only [Bool.and_eq_true, decide_eq_true_eq, and_assoc] at hv
      obtain ⟨hbed, hbath, _, _, _, _, _, hp, hdesc⟩ := hv
      exact ⟨hp, hdesc, hbed, hbath⟩
    · unfold mkListingInput at h
      rw [if_neg hv] at h
      exact Option.noConfusion h
  · intro m hviol
    by_cases hv : listingOk m = true
    · exfalso
      unfold listingOk at hv
      simp only [Bool.and_eq_true, decide_eq_true_eq, and_assoc] at hv
      obtain ⟨hbed, hbath, _, _, _, _, _, hp, hdesc⟩ := hv
      rcases hviol with h1 | h1 | h1 | h1
      · exact absurd hp (not_lt.mpr h1)
      · omega
      · exact absurd hbed (by omega)
      · exact absurd hbath (not_le.mpr h1)
    · unfold mkListingInput
      rw [if_neg hv]

/-- C2 witness: `m0` is accepted and satisfies the constraints; `m0bad`
(zero price) is rejected. -/
theorem c2_witness :
    (0 < m0.list_price ∧ 10 ≤ m0.description.length ∧
      0 ≤ m0.bedrooms ∧ 0 ≤ m0.bathrooms) ∧ mkListingInput m0bad = none :=
  ⟨c2_listing_validation.1 m0 m0 (by decide),
   c2_listing_validation.2 m0bad (Or.inl (by decide))⟩

/-- Text without digits anchors no regex match. -/
lemma firstDigitSuffix_none {cs : List Char} (h : ∀ c ∈ cs, ¬ c.isDigit) :
    firstDigitSuffix cs = none := by
  induction cs with
  | nil => rfl
  | cons c cs ih =>
      unfold firstDigitSuffix
      rw [if_neg (by simpa using h c (by simp))]
      exact ih fun x hx => h x (by simp [hx])

lemma extract_number_no_digit (t : String) (h : ∀ c ∈ t.data, ¬ c.isDigit) :
    extract_number_from_text (some t) = none := by
  by_cases ht : t = ""
  · simp [extract_number_from_text, ht]
  · simp [extract_number_from_text, ht, firstDigitSuffix_none h]

lemma extract_float_no_digit (t : String) (h : ∀ c ∈ t.data, ¬ c.isDigit) :
    extract_float_from_text (some t) = none := by
  by_cases ht : t = ""
  · simp [extract_float_from_text, ht]
  · simp [extract_float_from_text, ht, firstDigitSuffix_none h]

/-- C8: the extraction-helper laws: `extract_number_from_text("57 m²")`
is 57, `extract_number_from_text("")` is absent,
`extract_float_from_text("57.5 m²")` is 57.5, the disposition token
`"3+kk"` yields bedroom count 3 (both as a raw extraction and through
the conversion context), and both helpers return the absent sentinel
rather than raising on any input without digits. -/
theorem c8_extraction_helpers :
    extract_number_from_text (some "57 m²") = some 57 ∧
    extract_number_from_text (some "") = none ∧
    extract_float_from_text (some "57.5 m²") = some (57.5 : ℚ) ∧
    extract_number_from_text (some "3+kk") = some 3 ∧
    bedroomsPre pdDisp = 3 ∧
    (∀ t : String, (∀ c ∈ t.data, ¬ c.isDigit) →
      extract_number_from_text (some t) = none ∧
      extract_float_from_text (some t) = none) := by
  refine ⟨by decide, by decide, ?_, by decide, by decide, ?_⟩
  · have h : extract_float_from_text (some "57.5 m²") =
        some ((57 : ℚ) + (5 : ℚ) / (10 : ℚ) ^ (1 : ℕ)) := rfl
    rw [h]
    norm_num
  · intro t h
    exact ⟨extract_number_no_digit t h, extract_float_no_digit t h⟩

/-- C8 witness: the no-digit clause at the concrete input `"Kč"`. -/
theorem c8_witness :
    extract_number_from_text (some "Kč") = none ∧
    extract_float_from_text (some "Kč") = none :=
  c8_extraction_helpers.2.2.2.2.2 "Kč" (by decide)

/-- C3 (code bug): on the failing input the repair pass leaves
`list_price = 0` in place — the branch with a truthy per-m² text, a
truthy area but an empty cleaned rate string assigns nothing, where every
sibling branch assigns the extracted price, the computed price or the
1,000,000.0 floor — and the conversion then fails validation instead of
producing a repaired listing.  The Czech-format extraction itself is
correct: `"8 499 000 Kč"` yields `8499000.0`. -/
theorem c3_code_evaluation :
    (convRepair pd3 ld3).list_price = some 0 ∧
    extractPriceDirect (some "8 499 000 Kč") = some (8499000 : ℚ) := by
  constructor
  · decide
  · decide

/-- C4 counterexample: an empty parsed description is shorter than 10
characters, yet the repair pass leaves it empty (the guard
`if listing_data.get('description'):` skips falsy values), refuting the
claim for this input. -/
theorem c4_counterexample :
    ld4.description = some "" ∧
    (convRepair pd4 ld4).description = some "" ∧
    ¬ 10 ≤ ((convRepair pd4 ld4).description.getD "").length := by
  refine ⟨rfl, by decide, by decide⟩

/-- C4 as amended: for every parsed response whose description is
non-empty and shorter than 10 characters, the repaired data has a
description of length at least 10 (the title when it has at least 10
characters, else the templated sentence truncated to 500 characters). -/
theorem c4_description_repair (pd : ScrapedData) (ld : ConvParsed) (d : String)
    (hd : ld.description = some d) (hne : d ≠ "") (hlen : d.length < 10) :
    ∃ d', (convRepair pd ld).description = some d' ∧ 10 ≤ d'.length := by
  have hrest : (convRepair pd ld).description = repairDescription pd ld.description := by
    unfold convRepair repairRest
    rfl
  rw [hrest, hd]
  simp only [repairDescription]
  rw [if_pos hne, if_pos hlen]
  split
  · next ht =>
    exact ⟨_, rfl, ht.2⟩
  · refine ⟨_, rfl, ?_⟩
    show 10 ≤ (pySlice ("Property listing in " ++ convCity pd ++ ". " ++ d) 500).length
    unfold pySlice
    show 10 ≤ (List.take 500 ("Property listing in " ++ convCity pd ++ ". " ++ d).data).length
    rw [List.length_take]
    have h1 : ("Property listing in " ++ convCity pd ++ ". " ++ d).data.length =
        ("Property listing in ".length + (convCity pd).length) + ". ".length + d.length := by
      show ("Property listing in " ++ convCity pd ++ ". " ++ d).length = _
      rw [String.length_append, String.length_append, String.length_append]
    have h2 : "Property listing in ".length = 20 := by decide
    have h3 : ". ".length = 2 := by decide
    omega

/-- C4 witness: the 5-character description "Short" is repaired by the
conversion repair pass into one of length at least 10. -/
theorem c4_witness :
    ldShort.description = some "Short" ∧
    ∃ d', (convRepair pd4 ldShort).description = some d' ∧ 10 ≤ d'.length :=
  ⟨rfl, c4_description_repair pd4 ldShort "Short" rfl (by decide) (by decide)⟩

/-- Inversion for a two-armed option match (the compiled form of the
Python `try`-style chaining used throughout the embedding). -/
lemma obind_some_inv {α β : Type _} {o : Option α} {f : α → Option β} {b : β}
    (h : obind o f = some b) : ∃ a, o = some a ∧ f a = some b := by
  cases o with
  | none => exact Option.noConfusion h
  | some a => exact ⟨a, rfl, h⟩

/-- Inversion for the Pydantic result constructor. -/
lemma mkResult_some_inv {lid addr : String} {at' : Nat} {total : Int}
    {cons : Bool} {findings : List InconsistencyFinding} {summary : String}
    {r : ConsistencyCheckResult}
    (h : mkResult lid addr at' total cons findings summary = some r) :
    r = ⟨lid, addr, at', total, cons, findings, summary⟩ := by
  unfold mkResult at h
  split at h
  · cases h; rfl
  · exact Option.noConfusion h

/-- Shared shape facts about every successfully constructed mock result. -/
lemma mock_some_fields {url : String} {pa t d p : Option String}
    {reason : String} {now : Nat} {r : ConsistencyCheckResult}
    (h : generate_mock_result_for_property url pa t d p reason now = some r) :
    r.listing_id = mockListingId url ∧ r.is_consistent = false ∧
    r.total_inconsistencies = 2 ∧ r.findings.length = 2 ∧ r.checked_at = now := by
  unfold generate_mock_result_for_property at h
  obtain ⟨f1, hf1, h⟩ := obind_some_inv h
  obtain ⟨f2, hf2, h⟩ := obind_some_inv h
  rw [mkResult_some_inv h]
  exact ⟨rfl, rfl, rfl, rfl, rfl⟩

/-- C5: for every URL, the Mock/Fallback Generator called with only the
url argument succeeds (never raises), and its result carries at least one
finding, a non-empty summary and a finding whose explanation names the
triggering reason. -/
theorem c5_mock_fallback_guarantee (url : String) (now : Nat) :
    ∃ r, generate_mock_result_for_property url none none none none
        "LLM analysis failed" now = some r ∧
      1 ≤ r.findings.length ∧ r.summary ≠ "" ∧
      ∃ f ∈ r.findings,
        f.explanation = "Mock inconsistency result generated: LLM analysis failed" := by
  refine ⟨mockUrlOnlyResult url "LLM analysis failed" now, rfl, ?_, ?_, ?_⟩
  · exact (by norm_num : (1 : ℕ) ≤ 2)
  · exact (by decide :
      ¬("Mock inconsistency check result (LLM analysis failed): Found 2 inconsistencies as fallback data" = ""))
  · exact ⟨_, List.mem_cons_self _ _, rfl⟩

/-- C10: every result the Mock/Fallback Generator produces reports
`is_consistent = False` with exactly 2 findings and
`total_inconsistencies = 2`, so it is never structurally identical to a
genuine fully-consistent result. -/
theorem c10_mock_structurally_inconsistent (url : String)
    (pa t d p : Option String) (reason : String) (now : Nat)
    (r : ConsistencyCheckResult)
    (h : generate_mock_result_for_property url pa t d p reason now = some r) :
    r.is_consistent = false ∧ r.total_inconsistencies = 2 ∧
    r.findings.length = 2 := by
  obtain ⟨-, h1, h2, h3, -⟩ := mock_some_fields h
  exact ⟨h1, h2, h3⟩

/-- C10 witness: a concrete mock result, with the theorem applied to it. -/
theorem c10_witness :
    ∃ r, generate_mock_result_for_property "u" none none none none
        "LLM analysis failed" 0 = some r ∧
      r.is_consistent = false ∧ r.total_inconsistencies = 2 ∧
      r.findings.length = 2 := by
  have h : generate_mock_result_for_property "u" none none none none
      "LLM analysis failed" 0 = some (mockUrlOnlyResult "u" "LLM analysis failed" 0) := rfl
  exact ⟨_, h,
    c10_mock_structurally_inconsistent "u" none none none none
      "LLM analysis failed" 0 _ h⟩

lemma flatMap_hexByte_length (l : List Nat) :
    (l.flatMap MD5.hexByte).length = 2 * l.length := by
  induction l with
  | nil => rfl
  | cons x xs ih => simp [List.flatMap_cons, ih, MD5.hexByte]; omega

lemma digest_parts (m : List Nat) :
    (MD5.digest m).length = 16 ∧ ∀ b ∈ MD5.digest m, b < 256 := by
  unfold MD5.digest
  rcases (MD5.chunks64 (MD5.pad m)).foldl MD5.block MD5.initState with ⟨a, b, c, d⟩
  refine ⟨by simp [MD5.wordBytes], ?_⟩
  intro x hx
  simp [MD5.wordBytes] at hx
  rcases hx with h | h | h | h | h | h | h | h | h | h | h | h | h | h | h | h <;>
    · rw [h]; exact Nat.mod_lt _ (by norm_num)

lemma hexChar_upper_class {n : Nat} (h : n < 16) :
    (MD5.hexChar n).toUpper.isDigit ∨
      ('A' ≤ (MD5.hexChar n).toUpper ∧ (MD5.hexChar n).toUpper ≤ 'F') := by
  interval_cases n <;> decide

lemma md5Hex_chars (s : String) (c : Char) (hc : c ∈ (md5Hex s).data) :
    c.toUpper.isDigit ∨ ('A' ≤ c.toUpper ∧ c.toUpper ≤ 'F') := by
  unfold md5Hex at hc
  rw [String.data] at hc
  simp only [List.mem_flatMap] at hc
  obtain ⟨b, hb, hcb⟩ := hc
  have hblt : b < 256 := (digest_parts (MD5.utf8 s)).2 b hb
  unfold MD5.hexByte at hcb
  simp at hcb
  rcases hcb with h | h <;> rw [h]
  · exact hexChar_upper_class (Nat.div_lt_of_lt_mul (by omega))
  · exact hexChar_upper_class (Nat.mod_lt _ (by norm_num))

lemma md5Hex_length (s : String) : (md5Hex s).length = 32 := by
  show (md5Hex s).data.length = 32
  unfold md5Hex
  rw [String.data]
  rw [flatMap_hexByte_length, (digest_parts (MD5.utf8 s)).1]

/-- C9: listing-id derivation is deterministic, the Mock/Fallback
Generator's inline derivation computes exactly the same id as
`generate_listing_id_from_url`, two concrete distinct URLs receive
distinct ids (the formal stand-in for the probabilistic
collision-freeness clause), and every id has the shape `"PRG-"` followed
by 12 uppercase hexadecimal characters. -/
theorem c9_listing_id_derivation :
    (∀ url : String,
      generate_listing_id_from_url url = generate_listing_id_from_url url) ∧
    (∀ url : String, mockListingId url = generate_listing_id_from_url url) ∧
    generate_listing_id_from_url "https://x/974793-a" ≠
      generate_listing_id_from_url "https://x/974793-b" ∧
    (∀ url : String, ∃ t : String,
      generate_listing_id_from_url url = "PRG-" ++ t ∧ t.length = 12 ∧
      ∀ c ∈ t.data, c.isDigit ∨ ('A' ≤ c ∧ c ≤ 'F')) := by
  refine ⟨fun _ => rfl, fun _ => rfl, by decide, fun url => ⟨_, rfl, ?_, ?_⟩⟩
  · show (pyUpper ⟨(md5Hex url).data.take 12⟩).length = 12
    unfold pyUpper
    show (((md5Hex url).data.take 12).map Char.toUpper).length = 12
    rw [List.length_map, List.length_take]
    have h32 : (md5Hex url).data.length = 32 := md5Hex_length url
    omega
  · intro c hc
    unfold pyUpper at hc
    rw [String.data] at hc
    simp only [List.mem_map] at hc
    obtain ⟨c0, hc0, hcc⟩ := hc
    rw [String.data] at hc0
    have : c0 ∈ (md5Hex url).data := List.take_subset 12 _ hc0
    subst hcc
    exact md5Hex_chars url c0 this

lemma okOr_ok_inv {o : Option ConsistencyCheckResult}
    {e : Except Unit ConsistencyCheckResult} {r : ConsistencyCheckResult}
    (h : okOr o e = .ok r) : o = some r ∨ (o = none ∧ e = .ok r) := by
  cases o with
  | none => exact Or.inr ⟨rfl, h⟩
  | some x => cases h; exact Or.inl rfl

/-- On every completion-failure mode the checker returns its fallback. -/
lemma check_fallback (pd : CheckerData) (now : Nat) :
    ∀ llm : CheckLLMOut, llmFailed llm = true →
      check_property_consistency pd llm now = checkerFallback pd now
  | .raises, _ => rfl
  | .noResult, _ => rfl
  | .badJson, _ => rfl
  | .parsed _, h => by simp [llmFailed] at h

/-- C6 counterexample: with a 200-character scraped title and a failing
completion, the fallback mock construction violates the 200-character
`listing_data_says` bound and its `ValidationError` escapes
`check_property_consistency` — refuting the claim that no exception
escapes and a result is always returned. -/
theorem c6_counterexample :
    check_property_consistency pdC6bad .raises 0 = .error () := rfl

/-- C6 as amended: for every input mapping and failing completion
outcome, whenever the mock construction itself satisfies the schema
bounds (always the case when only a url is available), the checker
returns exactly that mock result, whose `listing_id` is derived
deterministically from the input URL. -/
theorem c6_failure_returns_mock (pd : CheckerData) (llm : CheckLLMOut)
    (now : Nat) (r : ConsistencyCheckResult) (hfail : llmFailed llm = true)
    (hmock : generate_mock_result_for_property pd.url (some (checkerAddress pd))
      pd.title pd.description pd.price
      "LLM consistency check failed or unavailable" now = some r) :
    check_property_consistency pd llm now = .ok r ∧
    r.listing_id = generate_listing_id_from_url pd.url := by
  constructor
  · rw [check_fallback pd now llm hfail]
    unfold checkerFallback
    rw [hmock]
    rfl
  · rw [(mock_some_fields hmock).1, mockListingId_eq]

/-- C6 witness: the amended theorem at a concrete input. -/
theorem c6_witness :
    check_property_consistency pdC6ok .raises 0 =
      .ok (mockUrlOnlyResult "u" "LLM consistency check failed or unavailable" 0) ∧
    (mockUrlOnlyResult "u" "LLM consistency check failed or unavailable" 0).listing_id =
      generate_listing_id_from_url pdC6ok.url :=
  c6_failure_returns_mock pdC6ok .raises 0 _ rfl rfl

lemma strictFindings_length :
    ∀ (l : List IncDict) (fs : List InconsistencyFinding),
      strictFindings l = some fs → fs.length = l.length
  | [], _, h => by cases h; rfl
  | x :: xs, fs, h => by
      obtain ⟨f, _, h⟩ := obind_some_inv h
      obtain ⟨fs', hfs', h⟩ := obind_some_inv h
      cases h
      simp [strictFindings_length xs fs' hfs']

lemma intCast_beq_zero (n : Nat) : ((n : Int) == 0) = (n == 0) := by
  cases n <;> rfl

/-- Every result the checker's fallback successfully emits satisfies the
count/consistency invariant (mock results carry 2 findings). -/
lemma checkerFallback_ok_invariant (pd : CheckerData) (now : Nat)
    (r : ConsistencyCheckResult) (h : checkerFallback pd now = .ok r) :
    r.total_inconsistencies = (r.findings.length : Int) ∧
    r.is_consistent = (r.total_inconsistencies == 0) := by
  unfold checkerFallback at h
  rcases okOr_ok_inv h with hm | ⟨-, he⟩
  · obtain ⟨-, h1, h2, h3, -⟩ := mock_some_fields hm
    rw [h1, h2, h3]
    exact ⟨rfl, rfl⟩
  · exact Except.noConfusion he

/-- C1 as amended: `total_inconsistencies` always equals the findings
count in both operations; `is_consistent` equals
`total_inconsistencies == 0` always on `check_property_consistency`'s
path, but in the structured-output repair only when the parsed response
omitted `is_consistent` — a present value is trusted unchanged. -/
theorem c1_consistency_invariant :
    (∀ (li : ListingInput) (p : ParsedConsistency) (now : Nat)
        (r : ConsistencyCheckResult),
      repairStructured li p now = some r →
      r.total_inconsistencies = (r.findings.length : Int) ∧
      (p.is_consistent = none → r.is_consistent = (r.findings.length == 0))) ∧
    (∀ (pd : CheckerData) (llm : CheckLLMOut) (now : Nat)
        (r : ConsistencyCheckResult),
      check_property_consistency pd llm now = .ok r →
      r.total_inconsistencies = (r.findings.length : Int) ∧
      r.is_consistent = (r.total_inconsistencies == 0)) := by
  constructor
  · intro li p now r h
    unfold repairStructured at h
    obtain ⟨findings, hsf, h⟩ := obind_some_inv h
    have hlen := strictFindings_length _ _ hsf
    rw [mkResult_some_inv h]
    constructor
    · show (_ : Int) = ((findings.length : Nat) : Int)
      rw [hlen]
    · intro hnone
      show Option.getD p.is_consistent _ = (findings.length == 0)
      rw [hnone, Option.getD_none, hlen]
  · intro pd llm now r h
    by_cases hfail : llmFailed llm = true
    · rw [check_fallback pd now llm hfail] at h
      exact checkerFallback_ok_invariant pd now r h
    · cases llm with
      | raises => exact absurd rfl hfail
      | noResult => exact absurd rfl hfail
      | badJson => exact absurd rfl hfail
      | parsed incs =>
          replace h : checkerParsed pd now incs = .ok r := h
          unfold checkerParsed at h
          cases hc : checkerFindings incs with
          | none =>
              rw [hc] at h
              exact checkerFallback_ok_invariant pd now r h
          | some findings =>
              rw [hc] at h
              rcases okOr_ok_inv h with hm | ⟨-, he⟩
              · rw [mkResult_some_inv hm]
                exact ⟨rfl, (intCast_beq_zero findings.length).symm⟩
              · exact checkerFallback_ok_invariant pd now r he

/-- C1 counterexample: the structured-output repair keeps a reported
`is_consistent = true` even though the repaired result carries one
finding, so `is_consistent` does not equal `total_inconsistencies == 0`
for this completion response. -/
theorem c1_counterexample :
    ∃ r, repairStructured m0 p1 0 = some r ∧ r.is_consistent = true ∧
      r.total_inconsistencies = 1 ∧ r.findings.length = 1 ∧
      r.is_consistent ≠ (r.total_inconsistencies == 0) := by
  have h : repairStructured m0 p1 0 = some ⟨"L1", "A", 7, 1, true,
      [⟨"bedrooms", "3", "4", .critical, "Counts differ."⟩],
      "model says consistent"⟩ := rfl
  exact ⟨_, h, rfl, rfl, rfl, by decide⟩

/-- C1 witness: both halves of the amended theorem at concrete inputs. -/
theorem c1_witness :
    (∃ r, repairStructured m0 p2 0 = some r ∧
      r.total_inconsistencies = (r.findings.length : Int) ∧
      (p2.is_consistent = none → r.is_consistent = (r.findings.length == 0))) ∧
    (∃ r, check_property_consistency pdC6ok .raises 0 = .ok r ∧
      r.total_inconsistencies = (r.findings.length : Int) ∧
      r.is_consistent = (r.total_inconsistencies == 0)) := by
  constructor
  · have h : repairStructured m0 p2 0 = some ⟨"L1", "A", 7, 1, false,
        [⟨"bedrooms", "3", "4", .critical, "Counts differ."⟩],
        "model says consistent"⟩ := rfl
    exact ⟨_, h, c1_consistency_invariant.1 m0 p2 0 _ h⟩
  · have h : check_property_consistency pdC6ok .raises 0 =
        .ok (mockUrlOnlyResult "u" "LLM consistency check failed or unavailable" 0) := rfl
    exact ⟨_, h, c1_consistency_invariant.2 pdC6ok .raises 0 _ h⟩

/-! ## Sanitizer lemmas (claim C7). -/

lemma ebind_ok_inv {α β : Type _} {e : Except Unit α} {f : α → Except Unit β}
    {b : β} (h : ebind e f = .ok b) : ∃ a, e = .ok a ∧ f a = .ok b := by
  cases e with
  | error e => exact Except.noConfusion h
  | ok a => exact ⟨a, rfl, h⟩

lemma ebind_ok {α β : Type _} {e : Except Unit α} {f : α → Except Unit β}
    {a : α} (h : e = .ok a) : ebind e f = f a := by
  rw [h]; rfl

lemma JList.toList_ofList : ∀ l : List J, (JList.ofList l).toList = l
  | [] => rfl
  | x :: xs => by simp [JList.ofList, JList.toList, JList.toList_ofList xs]

lemma getKey_setKey_self : ∀ (d : JObj) (k : String) (v : J),
    (d.setKey k v).getKey k = some v
  | .nil, k, v => by simp [JObj.setKey, JObj.getKey]
  | .cons k' v' tl, k, v => by
      unfold JObj.setKey
      by_cases h : k' = k
      · simp [h, JObj.getKey]
      · simp [h, JObj.getKey, getKey_setKey_self tl k v]

lemma getKey_setKey_ne : ∀ (d : JObj) (k k' : String) (v : J), k' ≠ k →
    (d.setKey k v).getKey k' = d.getKey k'
  | .nil, k, k', v, h => by simp [JObj.setKey, JObj.getKey, h, Ne.symm h]
  | .cons k0 v0 tl, k, k', v, h => by
      unfold JObj.setKey
      by_cases h0 : k0 = k
      · subst h0
        simp [JObj.getKey, Ne.symm h]
      · by_cases h1 : k0 = k'
        · simp [h0, JObj.getKey, h1, h]
        · simp [h0, JObj.getKey, h1, getKey_setKey_ne tl k k' v h]

lemma setKey_getKey_same : ∀ (d : JObj) (k : String) (v : J),
    d.getKey k = some v → d.setKey k v = d
  | .nil, k, v, h => by simp [JObj.getKey] at h
  | .cons k0 v0 tl, k, v, h => by
      unfold JObj.getKey at h
      unfold JObj.setKey
      by_cases h0 : k0 = k
      · rw [if_pos h0] at h
        cases h
        rw [if_pos h0]
      · rw [if_neg h0] at h
        rw [if_neg h0, setKey_getKey_same tl k v h]

lemma getKey_delKey_self : ∀ (d : JObj) (k : String),
    (d.delKey k).getKey k = none
  | .nil, k => rfl
  | .cons k0 v0 tl, k => by
      unfold JObj.delKey
      by_cases h0 : k0 = k
      · simp [h0, getKey_delKey_self tl k]
      · simp [h0, JObj.getKey, getKey_delKey_self tl k]

lemma getKey_delKey_ne : ∀ (d : JObj) (k k' : String), k' ≠ k →
    (d.delKey k).getKey k' = d.getKey k'
  | .nil, k, k', h => rfl
  | .cons k0 v0 tl, k, k', h => by
      unfold JObj.delKey
      by_cases h0 : k0 = k
      · subst h0
        simp [JObj.getKey, Ne.symm h, getKey_delKey_ne tl k0 k' h]
      · by_cases h1 : k0 = k'
        · simp [h0, JObj.getKey, h1, h]
        · simp [h0, JObj.getKey, h1, getKey_delKey_ne tl k k' h]

lemma containsStr_iff : ∀ (l : List J) (p : String),
    (JList.ofList l).containsStr p = true ↔ J.str p ∈ l
  | [], p => by simp [JList.ofList, JList.containsStr]
  | x :: xs, p => by
      unfold JList.ofList JList.containsStr
      rw [Bool.or_eq_true, containsStr_iff xs p]
      constructor
      · rintro (hx | hx)
        · cases x <;> simp_all
        · exact List.mem_cons_of_mem _ hx
      · intro hmem
        rcases List.mem_cons.mp hmem with h | h
        · subst h; simp
        · exact Or.inr h

lemma pyEq_refl_of_hashable : ∀ {x : J}, hashable x = true → pyEq x x = true := by
  intro x h
  cases x with
  | null => rfl
  | bool b => simp [pyEq, numVal?]
  | num q => simp [pyEq, numVal?]
  | str s => simp [pyEq, numVal?]
  | arr xs => simp [hashable] at h
  | obj kvs => simp [hashable] at h

lemma pyEq_symm (a b : J) : pyEq a b = pyEq b a := by
  cases a <;> cases b <;> simp [pyEq, numVal?] <;>
    first
      | rfl
      | exact eq_comm

/-- `pyEq` with a string is structural equality with that string. -/
lemma pyEq_str_iff (b : J) (p : String) : pyEq b (J.str p) = true ↔ b = J.str p := by
  cases b <;> simp [pyEq, numVal?]

lemma dedupGo_subset : ∀ (seen l : List J) (a : J), a ∈ dedupPyEqGo seen l → a ∈ l
  | _, [], a, h => by simp [dedupPyEqGo] at h
  | seen, x :: xs, a, h => by
      unfold dedupPyEqGo at h
      by_cases hC : seen.any (fun y => pyEq y x) = true
      · rw [if_pos hC] at h
        exact List.mem_cons_of_mem _ (dedupGo_subset seen xs a h)
      · rw [if_neg hC] at h
        rcases List.mem_cons.mp h with h | h
        · exact h ▸ List.mem_cons_self _ _
        · exact List.mem_cons_of_mem _ (dedupGo_subset (seen ++ [x]) xs a h)

lemma dedupGo_not_seen : ∀ (seen l : List J) (a : J), a ∈ dedupPyEqGo seen l →
    ∀ s ∈ seen, pyEq s a = false
  | _, [], a, h => by simp [dedupPyEqGo] at h
  | seen, x :: xs, a, h => by
      unfold dedupPyEqGo at h
      by_cases hC : seen.any (fun y => pyEq y x) = true
      · rw [if_pos hC] at h
        exact dedupGo_not_seen seen xs a h
      · rw [if_neg hC] at h
        rcases List.mem_cons.mp h with rfl | h
        · intro s hs
          cases he : pyEq s a
          · rfl
          · exact absurd (List.any_eq_true.mpr ⟨s, hs, he⟩) hC
        · intro s hs
          exact dedupGo_not_seen (seen ++ [x]) xs a h s (List.mem_append_left _ hs)

lemma dedupGo_pairwise : ∀ (seen l : List J),
    (dedupPyEqGo seen l).Pairwise (fun a b => pyEq a b = false)
  | _, [] => List.Pairwise.nil
  | seen, x :: xs => by
      unfold dedupPyEqGo
      by_cases hC : seen.any (fun y => pyEq y x) = true
      · rw [if_pos hC]
        exact dedupGo_pairwise seen xs
      · rw [if_neg hC]
        refine List.Pairwise.cons ?_ (dedupGo_pairwise (seen ++ [x]) xs)
        intro b hb
        exact dedupGo_not_seen _ _ _ hb x (List.mem_append_right _ (List.mem_singleton.mpr rfl))

lemma dedupGo_eq_self : ∀ (seen l : List J),
    (∀ s ∈ seen, ∀ x ∈ l, pyEq s x = false) →
    l.Pairwise (fun a b => pyEq a b = false) → dedupPyEqGo seen l = l
  | _, [], _, _ => rfl
  | seen, x :: xs, hseen, hpw => by
      unfold dedupPyEqGo
      have hC : ¬ seen.any (fun y => pyEq y x) = true := by
        rw [List.any_eq_true]
        rintro ⟨s, hs, hpe⟩
        rw [hseen s hs x (List.mem_cons_self _ _)] at hpe
        exact Bool.noConfusion hpe
      rw [if_neg hC]
      congr 1
      refine dedupGo_eq_self (seen ++ [x]) xs ?_ (List.Pairwise.sublist (List.sublist_cons_self x xs) hpw)
      intro s hs y hy
      rcases List.mem_append.mp hs with hs | hs
      · exact hseen s hs y (List.mem_cons_of_mem _ hy)
      · rw [List.mem_singleton.mp hs]
        exact List.rel_of_pairwise_cons hpw hy

lemma dedupGo_mem_of_unique (a : J) : ∀ (seen l : List J), a ∈ l →
    (∀ b ∈ l, pyEq b a = true → b = a) →
    (∀ y ∈ seen, pyEq y a = false) → a ∈ dedupPyEqGo seen l
  | _, [], hmem, _, _ => absurd hmem (List.not_mem_nil a)
  | seen, x :: xs, hmem, huniq, hseen => by
      unfold dedupPyEqGo
      by_cases hax : a = x
      · subst hax
        have hC : ¬ seen.any (fun y => pyEq y a) = true := by
          rw [List.any_eq_true]
          rintro ⟨s, hs, hpe⟩
          rw [hseen s hs] at hpe
          exact Bool.noConfusion hpe
        rw [if_neg hC]
        exact List.mem_cons_self _ _
      · have hmem' : a ∈ xs := by
          rcases List.mem_cons.mp hmem with h | h
          · exact absurd h hax
          · exact h
        have huniq' : ∀ b ∈ xs, pyEq b a = true → b = a := fun b hb =>
          huniq b (List.mem_cons_of_mem _ hb)
        by_cases hC : seen.any (fun y => pyEq y x) = true
        · rw [if_pos hC]
          exact dedupGo_mem_of_unique a seen xs hmem' huniq' hseen
        · rw [if_neg hC]
          refine List.mem_cons_of_mem _ (dedupGo_mem_of_unique a (seen ++ [x]) xs hmem' huniq' ?_)
          intro y hy
          rcases List.mem_append.mp hy with hy | hy
          · exact hseen y hy
          · rw [List.mem_singleton.mp hy]
            cases he : pyEq x a
            · rfl
            · exact absurd (huniq x (List.mem_cons_self _ _) he).symm hax

lemma strsOf_map_str : ∀ l : List J, l.all isStrV = true → (strsOf l).map J.str = l
  | [], _ => rfl
  | x :: xs, h => by
      rw [List.all_cons, Bool.and_eq_true] at h
      cases x with
      | str s =>
          have ih := strsOf_map_str xs h.2
          simp only [strsOf, List.filterMap_cons] at ih ⊢
          simp only [List.map_cons]
          rw [ih]
      | null => simp [isStrV] at h
      | bool b => simp [isStrV] at h
      | num q => simp [isStrV] at h
      | arr xs' => simp [isStrV] at h
      | obj kvs => simp [isStrV] at h

lemma sortStrs_perm {l : List J} (h : l.all isStrV = true) :
    List.Perm (sortStrs l) l := by
  unfold sortStrs
  have h1 : List.Perm ((List.insertionSort (· ≤ ·) (strsOf l)).map J.str)
      ((strsOf l).map J.str) := (List.perm_insertionSort _ _).map J.str
  rw [strsOf_map_str l h] at h1
  exact h1

lemma sortStrs_eq_of_perm {l1 l2 : List J} (h : List.Perm l1 l2) :
    sortStrs l1 = sortStrs l2 := by
  unfold sortStrs
  congr 1
  exact List.eq_of_perm_of_sorted
    ((List.perm_insertionSort _ _).trans ((h.filterMap _).trans (List.perm_insertionSort _ _).symm))
    (List.sorted_insertionSort _ _) (List.sorted_insertionSort _ _)

lemma insertByKey_perm (x : J) : ∀ l : List J, List.Perm (insertByKey x l) (x :: l)
  | [] => List.Perm.refl _
  | y :: ys => by
      unfold insertByKey
      by_cases hc : numKey x < numKey y
      · rw [if_pos hc]
      · rw [if_neg hc]
        exact ((insertByKey_perm x ys).cons y).trans (List.Perm.swap x y ys)

lemma sortNums_perm : ∀ l : List J, List.Perm (sortNums l) l
  | [] => List.Perm.refl _
  | x :: xs => (insertByKey_perm x (sortNums xs)).trans ((sortNums_perm xs).cons x)

lemma insertByKey_pairwise {x : J} : ∀ {l : List J},
    l.Pairwise (fun a b => numKey a ≤ numKey b) →
    (insertByKey x l).Pairwise (fun a b => numKey a ≤ numKey b) := by
  intro l h
  induction l with
  | nil => exact List.pairwise_singleton _ _
  | cons y ys ih =>
      unfold insertByKey
      by_cases hc : numKey x < numKey y
      · rw [if_pos hc]
        refine List.Pairwise.cons ?_ h
        intro b hb
        rcases List.mem_cons.mp hb with rfl | hb
        · exact le_of_lt hc
        · exact le_trans (le_of_lt hc) (List.rel_of_pairwise_cons h hb)
      · rw [if_neg hc]
        rw [List.pairwise_cons] at h
        refine List.Pairwise.cons ?_ (ih h.2)
        intro b hb
        have := (insertByKey_perm x ys).mem_iff.mp hb
        rcases List.mem_cons.mp this with rfl | hb'
        · exact not_lt.mp hc
        · exact h.1 b hb'

lemma sortNums_sorted : ∀ l : List J,
    (sortNums l).Pairwise (fun a b => numKey a ≤ numKey b)
  | [] => List.Pairwise.nil
  | _ :: xs => insertByKey_pairwise (sortNums_sorted xs)

lemma sortNums_eq_self : ∀ l : List J,
    l.Pairwise (fun a b => numKey a < numKey b) → sortNums l = l
  | [], _ => rfl
  | x :: xs, h => by
      rw [List.pairwise_cons] at h
      show insertByKey x (sortNums xs) = x :: xs
      rw [sortNums_eq_self xs h.2]
      cases xs with
      | nil => rfl
      | cons y ys =>
          unfold insertByKey
          rw [if_pos (h.1 y (List.mem_cons_self _ _))]

lemma pySorted_perm {l R : List J} (h : pySorted l = .ok R) : List.Perm R l := by
  unfold pySorted at h
  by_cases h1 : l.length ≤ 1
  · rw [if_pos h1] at h
    cases h
    exact List.Perm.refl _
  · rw [if_neg h1] at h
    by_cases h2 : l.all isStrV = true
    · rw [if_pos h2] at h
      cases h
      exact sortStrs_perm h2
    · rw [if_neg h2] at h
      by_cases h3 : l.all (fun x => (numVal? x).isSome) = true
      · rw [if_pos h3] at h
        cases h
        exact sortNums_perm l
      · rw [if_neg h3] at h
        exact Except.noConfusion h

lemma perm_eq_of_length_le_one {l m : List J} (h : List.Perm l m)
    (hm : m.length ≤ 1) : l = m := by
  cases m with
  | nil => exact h.eq_nil
  | cons x t =>
      cases t with
      | nil => exact List.perm_singleton.mp h
      | cons y u => simp at hm

lemma requiredList_ok_inv {P : List String} {req R : List J}
    (h : requiredList P req = .ok R) :
    req.all hashable = true ∧ pySorted (dedupPyEq (P.map J.str ++ req)) = .ok R := by
  unfold requiredList at h
  by_cases hh : req.all hashable = true
  · rw [if_pos hh] at h
    exact ⟨hh, h⟩
  · rw [if_neg hh] at h
    exact Except.noConfusion h

lemma union_hashable {P : List String} {req : List J}
    (hreq : req.all hashable = true) :
    ∀ x ∈ P.map J.str ++ req, hashable x = true := by
  intro x hx
  rcases List.mem_append.mp hx with hx | hx
  · obtain ⟨p, -, rfl⟩ := List.mem_map.mp hx
    rfl
  · exact List.all_eq_true.mp hreq x hx

lemma pyEq_false_ne {a b : J} (ha : hashable a = true)
    (h : pyEq a b = false) : a ≠ b := by
  rintro rfl
  rw [pyEq_refl_of_hashable ha] at h
  exact Bool.noConfusion h

lemma isStrV_of_numVal {x : J} (h : (numVal? x).isSome = true) :
    isStrV x = false := by
  cases x <;> simp [numVal?, isStrV] at h ⊢

lemma pyEq_num_iff {a b : J} (ha : (numVal? a).isSome = true)
    (hb : (numVal? b).isSome = true) :
    pyEq a b = true ↔ numKey a = numKey b := by
  unfold pyEq numKey
  cases hva : numVal? a with
  | none => rw [hva] at ha; exact Bool.noConfusion ha
  | some x =>
      cases hvb : numVal? b with
      | none => rw [hvb] at hb; exact Bool.noConfusion hb
      | some y => simp

/-- Every property key appears (as a string value) in the recomputed
required list. -/
lemma requiredList_mem_str {P : List String} {req R : List J}
    (h : requiredList P req = .ok R) : ∀ p ∈ P, J.str p ∈ R := by
  intro p hp
  obtain ⟨-, hs⟩ := requiredList_ok_inv h
  have hmem : J.str p ∈ P.map J.str ++ req :=
    List.mem_append_left _ (List.mem_map_of_mem _ hp)
  have hD : J.str p ∈ dedupPyEq (P.map J.str ++ req) :=
    dedupGo_mem_of_unique _ [] _ hmem
      (fun b _ hbe => (pyEq_str_iff b p).mp hbe) (by simp)
  exact (pySorted_perm hs).mem_iff.mpr hD

/-- Core idempotence of the `required` recomputation: feeding the output
back in (with the same property keys) reproduces it exactly. -/
lemma requiredList_idem {P : List String} {req R : List J}
    (h : requiredList P req = .ok R) : requiredList P R = .ok R := by
  obtain ⟨hreq, hs⟩ := requiredList_ok_inv h
  have hperm : List.Perm R (dedupPyEq (P.map J.str ++ req)) := pySorted_perm hs
  have hDhash : ∀ x ∈ dedupPyEq (P.map J.str ++ req), hashable x = true :=
    fun x hx => union_hashable hreq x (dedupGo_subset _ _ _ hx)
  have hRhash : ∀ x ∈ R, hashable x = true := fun x hx => hDhash x (hperm.subset hx)
  have hRall : R.all hashable = true := List.all_eq_true.mpr hRhash
  have hDpw : (dedupPyEq (P.map J.str ++ req)).Pairwise (fun a b => pyEq a b = false) :=
    dedupGo_pairwise [] _
  have hsymm : Symmetric (fun a b : J => pyEq a b = false) := by
    intro a b hab
    show pyEq b a = false
    rw [pyEq_symm]
    exact hab
  have hRpw : R.Pairwise (fun a b => pyEq a b = false) :=
    (hperm.pairwise_iff (fun hab => hsymm hab)).mpr hDpw
  have hPR : ∀ p ∈ P, J.str p ∈ R := requiredList_mem_str h
  -- the second-pass deduplicated union is a permutation of R
  have hmemiff : ∀ a, a ∈ dedupPyEq (P.map J.str ++ R) ↔ a ∈ R := by
    intro a
    constructor
    · intro ha
      rcases List.mem_append.mp (dedupGo_subset _ _ _ ha) with hx | hx
      · obtain ⟨p, hp, rfl⟩ := List.mem_map.mp hx
        exact hPR p hp
      · exact hx
    · intro ha
      refine dedupGo_mem_of_unique a [] _ (List.mem_append_right _ ha) ?_ (by simp)
      intro b hb hbe
      rcases List.mem_append.mp hb with hx | hx
      · obtain ⟨p, -, rfl⟩ := List.mem_map.mp hx
        rw [pyEq_symm] at hbe
        exact ((pyEq_str_iff a p).mp hbe).symm
      · by_contra hne
        rw [hRpw.forall hsymm hx ha hne] at hbe
        exact Bool.noConfusion hbe
  have hD2nodup : (dedupPyEq (P.map J.str ++ R)).Nodup := by
    refine (dedupGo_pairwise [] _).imp_of_mem ?_
    intro a b ha _ hr
    exact pyEq_false_ne
      (union_hashable hRall a (dedupGo_subset _ _ _ ha)) hr
  have hRnodup : R.Nodup := hRpw.imp_of_mem fun ha _ hr => pyEq_false_ne (hRhash _ ha) hr
  have hD2perm : List.Perm (dedupPyEq (P.map J.str ++ R)) R :=
    (List.perm_ext_iff_of_nodup hD2nodup hRnodup).mpr hmemiff
  -- lengths agree across the permutations
  have hlenRD : R.length = (dedupPyEq (P.map J.str ++ req)).length := hperm.length_eq
  have hlenD2 : (dedupPyEq (P.map J.str ++ R)).length = R.length := hD2perm.length_eq
  unfold requiredList
  rw [if_pos hRall]
  -- case analysis on the branch the first pass took
  unfold pySorted at hs ⊢
  by_cases h1 : (dedupPyEq (P.map J.str ++ req)).length ≤ 1
  · rw [if_pos h1] at hs
    rw [if_pos (show (dedupPyEq (P.map J.str ++ R)).length ≤ 1 by omega)]
    rw [perm_eq_of_length_le_one hD2perm (by omega)]
  · rw [if_neg h1] at hs
    rw [if_neg (show ¬ (dedupPyEq (P.map J.str ++ R)).length ≤ 1 by omega)]
    by_cases h2 : (dedupPyEq (P.map J.str ++ req)).all isStrV = true
    · rw [if_pos h2] at hs
      injection hs with hsR
      have hD2str : (dedupPyEq (P.map J.str ++ R)).all isStrV = true := by
        refine List.all_eq_true.mpr fun x hx => ?_
        have hxD : x ∈ dedupPyEq (P.map J.str ++ req) :=
          hperm.subset (hD2perm.subset hx)
        exact List.all_eq_true.mp h2 x hxD
      rw [if_pos hD2str]
      rw [sortStrs_eq_of_perm (hD2perm.trans hperm), hsR]
    · rw [if_neg h2] at hs
      by_cases h3 : (dedupPyEq (P.map J.str ++ req)).all (fun x => (numVal? x).isSome) = true
      · rw [if_pos h3] at hs
        injection hs with hsR
        -- every property key would be a string in the all-numeric union
        have hPnil : P = [] := by
          cases P with
          | nil => rfl
          | cons p ps =>
              exfalso
              have hpD : J.str p ∈ dedupPyEq ((p :: ps).map J.str ++ req) := by
                refine dedupGo_mem_of_unique _ [] _ ?_
                  (fun b _ hbe => (pyEq_str_iff b p).mp hbe) (by simp)
                exact List.mem_append_left _ (List.mem_map_of_mem _ (List.mem_cons_self _ _))
              have hps := List.all_eq_true.mp h3 _ hpD
              simp [numVal?] at hps
        -- the union with no property keys is just R, already deduplicated
        have hD2R : dedupPyEq (P.map J.str ++ R) = R := by
          rw [hPnil]
          show dedupPyEqGo [] ([] ++ R) = R
          rw [List.nil_append]
          exact dedupGo_eq_self [] R (by simp) hRpw
        rw [hD2R]
        have hRnum : R.all (fun x => (numVal? x).isSome) = true :=
          List.all_eq_true.mpr fun x hx =>
            List.all_eq_true.mp h3 x (hperm.subset hx)
        have hRstr : ¬ R.all isStrV = true := by
          intro hall
          cases hR : R with
          | nil => rw [hR] at hlenRD; simp at hlenRD; omega
          | cons x t =>
              have hx := List.all_eq_true.mp hRnum x (hR ▸ List.mem_cons_self _ _)
              have hsx := List.all_eq_true.mp hall x (hR ▸ List.mem_cons_self _ _)
              rw [isStrV_of_numVal hx] at hsx
              exact Bool.noConfusion hsx
        have hle : R.Pairwise (fun a b => numKey a ≤ numKey b) :=
          hsR ▸ sortNums_sorted _
        have hne : R.Pairwise (fun a b => numKey a ≠ numKey b) := by
          refine hRpw.imp_of_mem ?_
          intro a b ha hb hr hk
          have ht := (pyEq_num_iff (List.all_eq_true.mp hRnum a ha)
            (List.all_eq_true.mp hRnum b hb)).mpr hk
          rw [hr] at ht
          exact Bool.noConfusion ht
        have hlt : R.Pairwise (fun a b => numKey a < numKey b) :=
          (hle.and hne).imp fun hab => lt_of_le_of_ne hab.1 hab.2
        rw [if_neg hRstr, if_pos hRnum, sortNums_eq_self R hlt]
      · rw [if_neg h3] at hs
        exact Except.noConfusion hs

lemma sanitizeVal_other {k : String} (v : J) (h1 : ¬ k = "items")
    (h2 : ¬ (k = "anyOf" ∨ k = "oneOf" ∨ k = "allOf"))
    (h3 : ¬ (k = "properties" ∨ k = "definitions" ∨ k = "$defs")) :
    sanitizeVal k v = .ok v := by
  unfold sanitizeVal
  rw [if_neg h1, if_neg h2, if_neg h3]

lemma sanitizeVal_type (v : J) : sanitizeVal "type" v = .ok v :=
  sanitizeVal_other v (by decide) (by decide) (by decide)

lemma sanitizeVal_required (v : J) : sanitizeVal "required" v = .ok v :=
  sanitizeVal_other v (by decide) (by decide) (by decide)

lemma sanitizeVal_addProps (v : J) :
    sanitizeVal "additionalProperties" v = .ok v :=
  sanitizeVal_other v (by decide) (by decide) (by decide)

lemma sanitizeTop_cons_fixed_inv {k : String} {v : J} {tl : JObj}
    (h : sanitizeTop (.cons k v tl) = .ok (.cons k v tl)) :
    sanitizeVal k v = .ok v ∧ sanitizeTop tl = .ok tl := by
  unfold sanitizeTop at h
  obtain ⟨v', hv', h⟩ := ebind_ok_inv h
  obtain ⟨tl', htl', h⟩ := ebind_ok_inv h
  injection h with h
  injection h with _ hveq htleq
  rw [hveq] at hv'
  rw [htleq] at htl'
  exact ⟨hv', htl'⟩

lemma sanitizeTop_setKey : ∀ (d : JObj) (k : String) (v : J),
    sanitizeTop d = .ok d → sanitizeVal k v = .ok v →
    sanitizeTop (d.setKey k v) = .ok (d.setKey k v)
  | .nil, k, v, hnil, hv => by
      unfold JObj.setKey sanitizeTop
      rw [ebind_ok hv, ebind_ok hnil]
  | .cons k0 v0 tl, k, v, hd, hv => by
      obtain ⟨hv0, htl⟩ := sanitizeTop_cons_fixed_inv hd
      unfold JObj.setKey
      by_cases h0 : k0 = k
      · rw [if_pos h0]
        unfold sanitizeTop
        rw [ebind_ok (h0 ▸ hv), ebind_ok htl]
      · rw [if_neg h0]
        unfold sanitizeTop
        rw [ebind_ok hv0, ebind_ok (sanitizeTop_setKey tl k v htl hv)]

lemma sanitizeTop_delKey : ∀ (d : JObj) (k : String),
    sanitizeTop d = .ok d → sanitizeTop (d.delKey k) = .ok (d.delKey k)
  | .nil, _, hnil => hnil
  | .cons k0 v0 tl, k, hd => by
      obtain ⟨hv0, htl⟩ := sanitizeTop_cons_fixed_inv hd
      unfold JObj.delKey
      by_cases h0 : k0 = k
      · rw [if_pos h0]
        exact sanitizeTop_delKey tl k htl
      · rw [if_neg h0]
        unfold sanitizeTop
        rw [ebind_ok hv0, ebind_ok (sanitizeTop_delKey tl k htl)]

lemma formatFix_of_str {d : JObj} {t : String}
    (hf : d.getKey "format" = some (.str t)) :
    formatFix d = if t = "uri" then
        (if (d.delKey "format").hasKey "type" then d.delKey "format"
         else (d.delKey "format").setKey "type" (.str "string"))
      else d := by
  simp only [formatFix, hf]

lemma formatFix_of_other {d : JObj}
    (hf : ∀ t : String, ¬ d.getKey "format" = some (.str t)) :
    formatFix d = d := by
  cases hv : d.getKey "format" with
  | none => simp only [formatFix, hv]
  | some v =>
      cases v with
      | str t => exact absurd hv (hf t)
      | null => simp only [formatFix, hv]
      | bool b => simp only [formatFix, hv]
      | num q => simp only [formatFix, hv]
      | arr xs => simp only [formatFix, hv]
      | obj kvs => simp only [formatFix, hv]

/-- The `format: "uri"` strip leaves an object with no `"uri"` format. -/
lemma formatFix_noUri (d : JObj) : ∀ s : String,
    (formatFix d).getKey "format" = some (.str s) → ¬ s = "uri" := by
  intro s hget huri
  subst huri
  by_cases hstr : ∃ t : String, d.getKey "format" = some (.str t)
  · obtain ⟨t, hf⟩ := hstr
    rw [formatFix_of_str hf] at hget
    by_cases ht : t = "uri"
    · rw [if_pos ht] at hget
      by_cases htype : (d.delKey "format").hasKey "type" = true
      · rw [if_pos htype] at hget
        rw [getKey_delKey_self] at hget
        exact Option.noConfusion hget
      · rw [if_neg htype] at hget
        rw [getKey_setKey_ne _ _ _ _ (by decide), getKey_delKey_self] at hget
        exact Option.noConfusion hget
    · rw [if_neg ht] at hget
      rw [hf] at hget
      injection hget with hget
      injection hget with hget
      exact ht hget
  · rw [formatFix_of_other (fun t htf => hstr ⟨t, htf⟩)] at hget
    exact hstr ⟨"uri", hget⟩

lemma formatFix_eq_of_noUri {d : JObj}
    (h : ∀ s : String, d.getKey "format" = some (.str s) → ¬ s = "uri") :
    formatFix d = d := by
  by_cases hstr : ∃ t : String, d.getKey "format" = some (.str t)
  · obtain ⟨t, hf⟩ := hstr
    rw [formatFix_of_str hf, if_neg (h t hf)]
  · exact formatFix_of_other (fun t htf => hstr ⟨t, htf⟩)

/-- The fix applied to top-level entries keeps them sanitized. -/
lemma sanitizeTop_formatFix {d : JObj} (hd : sanitizeTop d = .ok d) :
    sanitizeTop (formatFix d) = .ok (formatFix d) := by
  by_cases hstr : ∃ t : String, d.getKey "format" = some (.str t)
  · obtain ⟨t, hf⟩ := hstr
    rw [formatFix_of_str hf]
    by_cases ht : t = "uri"
    · rw [if_pos ht]
      by_cases htype : (d.delKey "format").hasKey "type" = true
      · rw [if_pos htype]
        exact sanitizeTop_delKey d "format" hd
      · rw [if_neg htype]
        exact sanitizeTop_setKey _ _ _ (sanitizeTop_delKey d "format" hd)
          (sanitizeVal_type _)
    · rw [if_neg ht]
      exact hd
  · rw [formatFix_of_other (fun t htf => hstr ⟨t, htf⟩)]
    exact hd

/-- Inversion of the required/additionalProperties fix. -/
lemma reqFix_ok_inv {d d' : JObj} (h : reqFix d = .ok d') :
    (d.getKey "properties" = none ∧ d' = d) ∨
    (∃ props R, d.getKey "properties" = some (.obj props) ∧
      requiredList props.keys (reqItems d) = .ok R ∧
      d' = (d.setKey "required" (.arr (JList.ofList R))).setKey
        "additionalProperties" (.bool false)) := by
  unfold reqFix at h
  cases hp : d.getKey "properties" with
  | none =>
      rw [hp] at h
      injection h with h
      exact Or.inl ⟨rfl, h.symm⟩
  | some v =>
      rw [hp] at h
      cases v with
      | obj props =>
          obtain ⟨R, hR, h⟩ := ebind_ok_inv h
          injection h with h
          exact Or.inr ⟨props, R, rfl, hR, h.symm⟩
      | null => exact Except.noConfusion h
      | bool b => exact Except.noConfusion h
      | num q => exact Except.noConfusion h
      | str s => exact Except.noConfusion h
      | arr xs => exact Except.noConfusion h

lemma reqFix_of_props {d props : JObj}
    (hp : d.getKey "properties" = some (.obj props)) :
    reqFix d = ebind (requiredList props.keys (reqItems d)) fun r =>
      .ok ((d.setKey "required" (.arr (JList.ofList r))).setKey
        "additionalProperties" (.bool false)) := by
  simp only [reqFix, hp]

lemma sanitizeTop_reqFix {d d' : JObj} (hd : sanitizeTop d = .ok d)
    (h : reqFix d = .ok d') : sanitizeTop d' = .ok d' := by
  rcases reqFix_ok_inv h with ⟨-, rfl⟩ | ⟨props, R, -, -, rfl⟩
  · exact hd
  · exact sanitizeTop_setKey _ _ _
      (sanitizeTop_setKey _ _ _ hd (sanitizeVal_required _))
      (sanitizeVal_addProps _)

/-- Applying the two non-recursive fixups to their own output changes
nothing: the format strip finds no `"uri"` and the required
recomputation reproduces itself. -/
lemma fixups_idem {d1 d2 : JObj} (h : reqFix (formatFix d1) = .ok d2) :
    formatFix d2 = d2 ∧ reqFix d2 = .ok d2 := by
  have hnoUri : ∀ s : String, d2.getKey "format" = some (.str s) → ¬ s = "uri" := by
    rcases reqFix_ok_inv h with ⟨-, rfl⟩ | ⟨props, R, -, -, rfl⟩
    · exact formatFix_noUri d1
    · intro s hget
      rw [getKey_setKey_ne _ _ _ _ (by decide),
        getKey_setKey_ne _ _ _ _ (by decide)] at hget
      exact formatFix_noUri d1 s hget
  refine ⟨formatFix_eq_of_noUri hnoUri, ?_⟩
  rcases reqFix_ok_inv h with ⟨hnone, rfl⟩ | ⟨props, R, hp, hR, rfl⟩
  · exact h
  · have hp2 : ((formatFix d1).setKey "required" (.arr (JList.ofList R)) |>.setKey
        "additionalProperties" (.bool false)).getKey "properties" =
        some (.obj props) := by
      rw [getKey_setKey_ne _ _ _ _ (by decide),
        getKey_setKey_ne _ _ _ _ (by decide)]
      exact hp
    have hreq2 : ((formatFix d1).setKey "required" (.arr (JList.ofList R)) |>.setKey
        "additionalProperties" (.bool false)).getKey "required" =
        some (.arr (JList.ofList R)) := by
      rw [getKey_setKey_ne _ _ _ _ (by decide), getKey_setKey_self]
    have hri : reqItems ((formatFix d1).setKey "required" (.arr (JList.ofList R))
        |>.setKey "additionalProperties" (.bool false)) = R := by
      simp only [reqItems, hreq2, JList.toList_ofList]
    rw [reqFix_of_props hp2, hri, ebind_ok (requiredList_idem hR),
      setKey_getKey_same _ _ _ hreq2,
      setKey_getKey_same _ _ _ (getKey_setKey_self _ _ _)]

lemma sanitize_of_isStrV : ∀ {x : J}, isStrV x = true → sanitize x = .ok x
  | .str s, _ => by simp [sanitize]
  | .null, hx => Bool.noConfusion hx
  | .bool b, hx => Bool.noConfusion hx
  | .num q, hx => Bool.noConfusion hx
  | .arr l, hx => Bool.noConfusion hx
  | .obj d, hx => Bool.noConfusion hx

lemma sanitizeItems_ofStrs : ∀ (l : List J), (∀ x ∈ l, isStrV x = true) →
    sanitizeItems (JList.ofList l) = .ok (JList.ofList l)
  | [], _ => by simp [JList.ofList, sanitizeItems]
  | x :: xs, hall => by
      unfold JList.ofList sanitizeItems
      rw [ebind_ok (sanitize_of_isStrV (hall x (List.mem_cons_self x xs))),
        ebind_ok (sanitizeItems_ofStrs xs fun y hy =>
          hall y (List.mem_cons_of_mem x hy))]

lemma sanitizeItems_strChars (s : String) :
    sanitizeItems (strChars s) = .ok (strChars s) := by
  unfold strChars
  refine sanitizeItems_ofStrs _ ?_
  intro x hx
  obtain ⟨c, -, rfl⟩ := List.mem_map.mp hx
  rfl

lemma sanitizeItems_keysArr (kvs : JObj) :
    sanitizeItems (keysArr kvs) = .ok (keysArr kvs) := by
  unfold keysArr
  refine sanitizeItems_ofStrs _ ?_
  intro x hx
  obtain ⟨c, -, rfl⟩ := List.mem_map.mp hx
  rfl

mutual
/-- On success the whole sanitizer is idempotent: its output is a fixed
point. -/
lemma sanitize_idem (j y : J) (h : sanitize j = .ok y) : sanitize y = .ok y := by
  cases j with
  | obj d =>
      simp only [sanitize] at h
      obtain ⟨d1, hd1, h2⟩ := ebind_ok_inv h
      obtain ⟨d2, hd2, h3⟩ := ebind_ok_inv h2
      injection h3 with h3
      subst h3
      have hfix1 : sanitizeTop d1 = .ok d1 := sanitizeTop_idem d d1 hd1
      have hfmt : sanitizeTop (formatFix d1) = .ok (formatFix d1) :=
        sanitizeTop_formatFix hfix1
      have hfix2 : sanitizeTop d2 = .ok d2 := sanitizeTop_reqFix hfmt hd2
      obtain ⟨hfmt2, hreq2⟩ := fixups_idem hd2
      simp only [sanitize]
      rw [ebind_ok hfix2, hfmt2, ebind_ok hreq2]
  | null =>
      simp only [sanitize] at h
      injection h with h
      subst h
      simp only [sanitize]
  | bool b =>
      simp only [sanitize] at h
      injection h with h
      subst h
      simp only [sanitize]
  | num q =>
      simp only [sanitize] at h
      injection h with h
      subst h
      simp only [sanitize]
  | str s =>
      simp only [sanitize] at h
      injection h with h
      subst h
      simp only [sanitize]
  | arr l =>
      simp only [sanitize] at h
      injection h with h
      subst h
      simp only [sanitize]
termination_by 3 * sizeOf j

lemma sanitizeTop_idem (d d' : JObj) (h : sanitizeTop d = .ok d') :
    sanitizeTop d' = .ok d' := by
  cases d with
  | nil =>
      simp only [sanitizeTop] at h
      injection h with h
      subst h
      simp only [sanitizeTop]
  | cons k v tl =>
      simp only [sanitizeTop] at h
      obtain ⟨v', hv', h2⟩ := ebind_ok_inv h
      obtain ⟨tl', htl', h3⟩ := ebind_ok_inv h2
      injection h3 with h3
      subst h3
      simp only [sanitizeTop]
      rw [ebind_ok (sanitizeVal_idem k v v' hv'),
        ebind_ok (sanitizeTop_idem tl tl' htl')]
termination_by 3 * sizeOf d + 2

lemma sanitizeVal_idem (k : String) (v v' : J) (h : sanitizeVal k v = .ok v') :
    sanitizeVal k v' = .ok v' := by
  unfold sanitizeVal at h ⊢
  by_cases h1 : k = "items"
  · rw [if_pos h1] at h ⊢
    exact sanitize_idem v v' h
  · rw [if_neg h1] at h ⊢
    by_cases h2 : k = "anyOf" ∨ k = "oneOf" ∨ k = "allOf"
    · rw [if_pos h2] at h ⊢
      cases v with
      | arr xs =>
          obtain ⟨xs', hxs', h3⟩ := ebind_ok_inv h
          injection h3 with h3
          subst h3
          exact ebind_ok (sanitizeItems_idem xs xs' hxs')
      | str s =>
          injection h with h
          subst h
          exact ebind_ok (sanitizeItems_strChars s)
      | obj kvs =>
          injection h with h
          subst h
          exact ebind_ok (sanitizeItems_keysArr kvs)
      | null => exact Except.noConfusion h
      | bool b => exact Except.noConfusion h
      | num q => exact Except.noConfusion h
    · rw [if_neg h2] at h ⊢
      by_cases h3 : k = "properties" ∨ k = "definitions" ∨ k = "$defs"
      · rw [if_pos h3] at h ⊢
        cases v with
        | obj kvs =>
            obtain ⟨kvs', hkvs', h4⟩ := ebind_ok_inv h
            injection h4 with h4
            subst h4
            exact ebind_ok (sanitizeVals_idem kvs kvs' hkvs')
        | null => exact Except.noConfusion h
        | bool b => exact Except.noConfusion h
        | num q => exact Except.noConfusion h
        | str s => exact Except.noConfusion h
        | arr xs => exact Except.noConfusion h
      · rw [if_neg h3] at h ⊢
termination_by 3 * sizeOf v + 1

lemma sanitizeItems_idem (l l' : JList) (h : sanitizeItems l = .ok l') :
    sanitizeItems l' = .ok l' := by
  cases l with
  | nil =>
      simp only [sanitizeItems] at h
      injection h with h
      subst h
      simp only [sanitizeItems]
  | cons x xs =>
      simp only [sanitizeItems] at h
      obtain ⟨x', hx', h2⟩ := ebind_ok_inv h
      obtain ⟨xs', hxs', h3⟩ := ebind_ok_inv h2
      injection h3 with h3
      subst h3
      simp only [sanitizeItems]
      rw [ebind_ok (sanitize_idem x x' hx'),
        ebind_ok (sanitizeItems_idem xs xs' hxs')]
termination_by 3 * sizeOf l + 2

lemma sanitizeVals_idem (d d' : JObj) (h : sanitizeVals d = .ok d') :
    sanitizeVals d' = .ok d' := by
  cases d with
  | nil =>
      simp only [sanitizeVals] at h
      injection h with h
      subst h
      simp only [sanitizeVals]
  | cons k v tl =>
      simp only [sanitizeVals] at h
      obtain ⟨v', hv', h2⟩ := ebind_ok_inv h
      obtain ⟨tl', htl', h3⟩ := ebind_ok_inv h2
      injection h3 with h3
      subst h3
      simp only [sanitizeVals]
      rw [ebind_ok (sanitize_idem v v' hv'),
        ebind_ok (sanitizeVals_idem tl tl' htl')]
termination_by 3 * sizeOf d + 2
end

lemma inv_of_isStrV : ∀ {x : J}, isStrV x = true → inv x = true
  | .str s, _ => by simp [inv]
  | .null, hx => Bool.noConfusion hx
  | .bool b, hx => Bool.noConfusion hx
  | .num q, hx => Bool.noConfusion hx
  | .arr l, hx => Bool.noConfusion hx
  | .obj d, hx => Bool.noConfusion hx

lemma invList_ofStrs : ∀ (l : List J), (∀ x ∈ l, isStrV x = true) →
    invList (JList.ofList l) = true
  | [], _ => by simp [JList.ofList, invList]
  | x :: xs, hall => by
      unfold JList.ofList invList
      rw [inv_of_isStrV (hall x (List.mem_cons_self x xs)),
        invList_ofStrs xs fun y hy => hall y (List.mem_cons_of_mem x hy)]
      rfl

lemma invList_strChars (s : String) : invList (strChars s) = true := by
  unfold strChars
  refine invList_ofStrs _ ?_
  intro x hx
  obtain ⟨c, -, rfl⟩ := List.mem_map.mp hx
  rfl

lemma invList_keysArr (kvs : JObj) : invList (keysArr kvs) = true := by
  unfold keysArr
  refine invList_ofStrs _ ?_
  intro x hx
  obtain ⟨c, -, rfl⟩ := List.mem_map.mp hx
  rfl

lemma invEntry_other {k : String} (v : J) (h1 : ¬ k = "items")
    (h2 : ¬ (k = "anyOf" ∨ k = "oneOf" ∨ k = "allOf"))
    (h3 : ¬ (k = "properties" ∨ k = "definitions" ∨ k = "$defs")) :
    invEntry k v = true := by
  unfold invEntry
  rw [if_neg h1, if_neg h2, if_neg h3]

lemma invEntry_type (v : J) : invEntry "type" v = true :=
  invEntry_other v (by decide) (by decide) (by decide)

lemma invEntry_required (v : J) : invEntry "required" v = true :=
  invEntry_other v (by decide) (by decide) (by decide)

lemma invEntry_addProps (v : J) : invEntry "additionalProperties" v = true :=
  invEntry_other v (by decide) (by decide) (by decide)

lemma invEntries_cons_inv {k : String} {v : J} {tl : JObj}
    (h : invEntries (.cons k v tl) = true) :
    invEntry k v = true ∧ invEntries tl = true := by
  simp only [invEntries, Bool.and_eq_true] at h
  exact h

lemma invEntries_setKey : ∀ (d : JObj) (k : String) (v : J),
    invEntries d = true → invEntry k v = true →
    invEntries (d.setKey k v) = true
  | .nil, k, v, _, hv => by
      simp [JObj.setKey, invEntries, hv]
  | .cons k0 v0 tl, k, v, hd, hv => by
      obtain ⟨hv0, htl⟩ := invEntries_cons_inv hd
      unfold JObj.setKey
      by_cases h0 : k0 = k
      · subst h0
        rw [if_pos rfl]
        simp [invEntries, hv, htl]
      · rw [if_neg h0]
        simp [invEntries, hv0, invEntries_setKey tl k v htl hv]

lemma invEntries_delKey : ∀ (d : JObj) (k : String),
    invEntries d = true → invEntries (d.delKey k) = true
  | .nil, _, h => h
  | .cons k0 v0 tl, k, hd => by
      obtain ⟨hv0, htl⟩ := invEntries_cons_inv hd
      unfold JObj.delKey
      by_cases h0 : k0 = k
      · rw [if_pos h0]
        exact invEntries_delKey tl k htl
      · rw [if_neg h0]
        simp [invEntries, hv0, invEntries_delKey tl k htl]

lemma invEntries_formatFix {d : JObj} (hd : invEntries d = true) :
    invEntries (formatFix d) = true := by
  by_cases hstr : ∃ t : String, d.getKey "format" = some (.str t)
  · obtain ⟨t, hf⟩ := hstr
    rw [formatFix_of_str hf]
    by_cases ht : t = "uri"
    · rw [if_pos ht]
      by_cases htype : (d.delKey "format").hasKey "type" = true
      · rw [if_pos htype]
        exact invEntries_delKey d "format" hd
      · rw [if_neg htype]
        exact invEntries_setKey _ _ _ (invEntries_delKey d "format" hd)
          (invEntry_type _)
    · rw [if_neg ht]
      exact hd
  · rw [formatFix_of_other fun t htf => hstr ⟨t, htf⟩]
    exact hd

lemma invEntries_reqFix {d d' : JObj} (hd : invEntries d = true)
    (h : reqFix d = .ok d') : invEntries d' = true := by
  rcases reqFix_ok_inv h with ⟨-, rfl⟩ | ⟨props, R, -, -, rfl⟩
  · exact hd
  · exact invEntries_setKey _ _ _
      (invEntries_setKey _ _ _ hd (invEntry_required _)) (invEntry_addProps _)

lemma invTop_reqFix {d d' : JObj} (h : reqFix d = .ok d') : invTop d' = true := by
  rcases reqFix_ok_inv h with ⟨hnone, rfl⟩ | ⟨props, R, hp, hR, rfl⟩
  · simp only [invTop, hnone]
  · have hp2 : ((d.setKey "required" (.arr (JList.ofList R))).setKey
        "additionalProperties" (.bool false)).getKey "properties" =
        some (.obj props) := by
      rw [getKey_setKey_ne _ _ _ _ (by decide),
        getKey_setKey_ne _ _ _ _ (by decide)]
      exact hp
    have hreq2 : ((d.setKey "required" (.arr (JList.ofList R))).setKey
        "additionalProperties" (.bool false)).getKey "required" =
        some (.arr (JList.ofList R)) := by
      rw [getKey_setKey_ne _ _ _ _ (by decide), getKey_setKey_self]
    have hap : ((d.setKey "required" (.arr (JList.ofList R))).setKey
        "additionalProperties" (.bool false)).getKey "additionalProperties" =
        some (.bool false) := getKey_setKey_self _ _ _
    simp only [invTop, hp2, hreq2, hap, Bool.and_eq_true, List.all_eq_true,
      decide_eq_true_eq]
    refine ⟨fun p hp' => ?_, trivial⟩
    exact (containsStr_iff R p).mpr (requiredList_mem_str hR p hp')

mutual
/-- Every object node in the sanitizer's output that declares
`properties` lists each of its property keys in `required` and carries
`additionalProperties: false`, recursively along the sanitizer's own
recursion edges. -/
lemma sanitize_inv (j y : J) (h : sanitize j = .ok y) : inv y = true := by
  cases j with
  | obj d =>
      simp only [sanitize] at h
      obtain ⟨d1, hd1, h2⟩ := ebind_ok_inv h
      obtain ⟨d2, hd2, h3⟩ := ebind_ok_inv h2
      injection h3 with h3
      subst h3
      have hE1 : invEntries d1 = true := sanitizeTop_invEntries d d1 hd1
      have hE2 : invEntries (formatFix d1) = true := invEntries_formatFix hE1
      have hE3 : invEntries d2 = true := invEntries_reqFix hE2 hd2
      have hT : invTop d2 = true := invTop_reqFix hd2
      simp [inv, hT, hE3]
  | null =>
      simp only [sanitize] at h
      injection h with h
      subst h
      simp [inv]
  | bool b =>
      simp only [sanitize] at h
      injection h with h
      subst h
      simp [inv]
  | num q =>
      simp only [sanitize] at h
      injection h with h
      subst h
      simp [inv]
  | str s =>
      simp only [sanitize] at h
      injection h with h
      subst h
      simp [inv]
  | arr l =>
      simp only [sanitize] at h
      injection h with h
      subst h
      simp [inv]
termination_by 3 * sizeOf j

lemma sanitizeTop_invEntries (d d' : JObj) (h : sanitizeTop d = .ok d') :
    invEntries d' = true := by
  cases d with
  | nil =>
      simp only [sanitizeTop] at h
      injection h with h
      subst h
      simp [invEntries]
  | cons k v tl =>
      simp only [sanitizeTop] at h
      obtain ⟨v', hv', h2⟩ := ebind_ok_inv h
      obtain ⟨tl', htl', h3⟩ := ebind_ok_inv h2
      injection h3 with h3
      subst h3
      simp [invEntries, sanitizeVal_invEntry k v v' hv',
        sanitizeTop_invEntries tl tl' htl']
termination_by 3 * sizeOf d + 2

lemma sanitizeVal_invEntry (k : String) (v v' : J)
    (h : sanitizeVal k v = .ok v') : invEntry k v' = true := by
  unfold sanitizeVal at h
  unfold invEntry
  by_cases h1 : k = "items"
  · rw [if_pos h1] at h ⊢
    exact sanitize_inv v v' h
  · rw [if_neg h1] at h ⊢
    by_cases h2 : k = "anyOf" ∨ k = "oneOf" ∨ k = "allOf"
    · rw [if_pos h2] at h ⊢
      cases v with
      | arr xs =>
          obtain ⟨xs', hxs', h3⟩ := ebind_ok_inv h
          injection h3 with h3
          subst h3
          exact sanitizeItems_invList xs xs' hxs'
      | str s =>
          injection h with h
          subst h
          exact invList_strChars s
      | obj kvs =>
          injection h with h
          subst h
          exact invList_keysArr kvs
      | null => exact Except.noConfusion h
      | bool b => exact Except.noConfusion h
      | num q => exact Except.noConfusion h
    · rw [if_neg h2] at h ⊢
      by_cases h3 : k = "properties" ∨ k = "definitions" ∨ k = "$defs"
      · rw [if_pos h3] at h ⊢
        cases v with
        | obj kvs =>
            obtain ⟨kvs', hkvs', h4⟩ := ebind_ok_inv h
            injection h4 with h4
            subst h4
            exact sanitizeVals_invVals kvs kvs' hkvs'
        | null => exact Except.noConfusion h
        | bool b => exact Except.noConfusion h
        | num q => exact Except.noConfusion h
        | str s => exact Except.noConfusion h
        | arr xs => exact Except.noConfusion h
      · rw [if_neg h3] at h ⊢
termination_by 3 * sizeOf v + 1

lemma sanitizeItems_invList (l l' : JList) (h : sanitizeItems l = .ok l') :
    invList l' = true := by
  cases l with
  | nil =>
      simp only [sanitizeItems] at h
      injection h with h
      subst h
      simp [invList]
  | cons x xs =>
      simp only [sanitizeItems] at h
      obtain ⟨x', hx', h2⟩ := ebind_ok_inv h
      obtain ⟨xs', hxs', h3⟩ := ebind_ok_inv h2
      injection h3 with h3
      subst h3
      simp [invList, sanitize_inv x x' hx', sanitizeItems_invList xs xs' hxs']
termination_by 3 * sizeOf l + 2

lemma sanitizeVals_invVals (d d' : JObj) (h : sanitizeVals d = .ok d') :
    invVals d' = true := by
  cases d with
  | nil =>
      simp only [sanitizeVals] at h
      injection h with h
      subst h
      simp [invVals]
  | cons k v tl =>
      simp only [sanitizeVals] at h
      obtain ⟨v', hv', h2⟩ := ebind_ok_inv h
      obtain ⟨tl', htl', h3⟩ := ebind_ok_inv h2
      injection h3 with h3
      subst h3
      simp [invVals, sanitize_inv v v' hv', sanitizeVals_invVals tl tl' htl']
termination_by 3 * sizeOf d + 2
end

lemma sanitizeTop_nil_eval : sanitizeTop .nil = .ok .nil := by
  simp only [sanitizeTop]

lemma sanitizeTop_cons_eval {k : String} {v v' : J} {tl tl' : JObj}
    (hv : sanitizeVal k v = .ok v') (htl : sanitizeTop tl = .ok tl') :
    sanitizeTop (.cons k v tl) = .ok (.cons k v' tl') := by
  simp only [sanitizeTop]
  rw [ebind_ok hv, ebind_ok htl]

lemma sanitizeVals_nil_eval : sanitizeVals .nil = .ok .nil := by
  simp only [sanitizeVals]

lemma sanitizeVals_cons_eval {k : String} {v v' : J} {tl tl' : JObj}
    (hv : sanitize v = .ok v') (htl : sanitizeVals tl = .ok tl') :
    sanitizeVals (.cons k v tl) = .ok (.cons k v' tl') := by
  simp only [sanitizeVals]
  rw [ebind_ok hv, ebind_ok htl]

lemma sanitizeVal_items_eval {v v' : J} (h : sanitize v = .ok v') :
    sanitizeVal "items" v = .ok v' := by
  unfold sanitizeVal
  rw [if_pos rfl]
  exact h

lemma sanitizeVal_props_eval {k : String} {kvs kvs' : JObj}
    (hne1 : ¬ k = "items")
    (hne2 : ¬ (k = "anyOf" ∨ k = "oneOf" ∨ k = "allOf"))
    (hk : k = "properties" ∨ k = "definitions" ∨ k = "$defs")
    (h : sanitizeVals kvs = .ok kvs') :
    sanitizeVal k (.obj kvs) = .ok (.obj kvs') := by
  unfold sanitizeVal
  rw [if_neg hne1, if_neg hne2, if_pos hk]
  exact ebind_ok h

lemma sanitize_obj_eval {d d1 d2 : JObj} (h1 : sanitizeTop d = .ok d1)
    (h2 : reqFix (formatFix d1) = .ok d2) :
    sanitize (.obj d) = .ok (.obj d2) := by
  simp only [sanitize]
  rw [ebind_ok h1, ebind_ok h2]

lemma sanitize_obj_eval_err {d d1 : JObj} (h1 : sanitizeTop d = .ok d1)
    (h2 : reqFix (formatFix d1) = .error ()) : sanitize (.obj d) = .error () := by
  simp only [sanitize]
  rw [ebind_ok h1, h2]
  rfl

/-- C7 counterexample: the sanitizer is not total and does not touch
every object-typed node.  On `{"properties": {}, "required": [[]]}` the
code raises `TypeError` (the unhashable list inside `required` reaches
`set()`), embedded as an `error` outcome; and `{"items": {"type":
"object"}}` passes through unchanged, its nested object-typed node
ending up without any `additionalProperties` key (the
required/additionalProperties fix only fires on nodes that carry a
`properties` key). -/
theorem c7_counterexample :
    sanitize badSchema = .error () ∧
    sanitize itemsSchema = .ok itemsSchema ∧
    itemsSchema = .obj (.cons "items"
      (.obj (.cons "type" (.str "object") .nil)) .nil) ∧
    (JObj.cons "type" (.str "object") .nil).getKey "additionalProperties" =
      none := by
  refine ⟨?_, ?_, rfl, rfl⟩
  · have g1 : sanitizeVal "properties" (.obj .nil) = .ok (.obj .nil) :=
      sanitizeVal_props_eval (by decide) (by decide) (Or.inl rfl)
        sanitizeVals_nil_eval
    have g2 := sanitizeVal_required (.arr (.cons (.arr .nil) .nil))
    have g3 := sanitizeTop_cons_eval g1
      (sanitizeTop_cons_eval g2 sanitizeTop_nil_eval)
    exact sanitize_obj_eval_err g3 rfl
  · have i1 : sanitize (.obj (.cons "type" (.str "object") .nil)) =
        .ok (.obj (.cons "type" (.str "object") .nil)) :=
      sanitize_obj_eval
        (sanitizeTop_cons_eval (sanitizeVal_type _) sanitizeTop_nil_eval) rfl
    have i3 := sanitizeTop_cons_eval (sanitizeVal_items_eval i1)
      sanitizeTop_nil_eval
    exact sanitize_obj_eval i3 rfl

/-- C7 as amended: wherever `sanitize_json_schema_for_llm` succeeds it is
idempotent — its output is a fixed point — and every object node of its
output that declares `properties` lists all its property keys in
`required` and sets `additionalProperties` to `false`, recursively along
the sanitizer's own recursion edges.  Totality and the unconditional
additionalProperties clause fail; see `c7_counterexample`. -/
theorem c7_sanitizer_idempotent_and_invariant (j y : J)
    (h : sanitize j = .ok y) : sanitize y = .ok y ∧ inv y = true :=
  ⟨sanitize_idem j y h, sanitize_inv j y h⟩

/-- C7 witness: the sanitizer maps `{"properties": {"a": {"type":
"string"}}}` to a schema carrying `required: ["a"]` and
`additionalProperties: false`; that output is a fixed point and
satisfies the node invariant. -/
theorem c7_witness :
    sanitize propSchemaOut = .ok propSchemaOut ∧ inv propSchemaOut = true :=
  c7_sanitizer_idempotent_and_invariant propSchema propSchemaOut (by
    have e1 : sanitize (.obj (.cons "type" (.str "string") .nil)) =
        .ok (.obj (.cons "type" (.str "string") .nil)) :=
      sanitize_obj_eval
        (sanitizeTop_cons_eval (sanitizeVal_type _) sanitizeTop_nil_eval) rfl
    have e2 := sanitizeVals_cons_eval (k := "a") e1 sanitizeVals_nil_eval
    have e3 := sanitizeVal_props_eval (by decide) (by decide) (Or.inl rfl) e2
    have e4 := sanitizeTop_cons_eval e3 sanitizeTop_nil_eval
    exact sanitize_obj_eval e4 rfl)

end ApifyHack

